import Mathlib

/-!
Shallow embedding of the TurfRun zone-capture and progression engine.

The engine lives in the repository's PostgreSQL stored procedures:
`capture_zone`, `attack_zone`, `defend_zone`, `update_mission_progress`,
`create_initial_missions` (rpc file) and `award_ep`,
`calculate_respect_level`, `generate_grid_id`, `generate_zone_geom`
(schema file).  Each SQL function is translated into a Lean function on an
explicit `GameState`.  SQL exceptions (which abort the whole call and roll
back every change) are rendered as `none`; a returned result row is
`some (result, newState)`.  Timestamps (`NOW()`) are threaded as a `now : Nat`
parameter.  Free-text message columns, jsonb payloads and the PostGIS
geometry column of a zone row are not modelled; the notification /
activity-log rows keep their recipient, enum type and numeric columns.
SQL `INTEGER` columns are modelled as `Int`.
-/

namespace TurfRun

abbrev UserId := Nat
abbrev ZoneId := String

/-- Row of the `users` table (progression-relevant columns). -/
structure User where
  totalEP : Int
  respectLevel : Int
deriving DecidableEq, Repr

/-- `zone_status` enum from the schema. -/
inductive ZoneStatus where
  | neutral | safe | under_attack | war
deriving DecidableEq, Repr

/-- Row of the `zones` table (geometry column omitted). -/
structure Zone where
  ownerId : Option UserId
  defenseScore : Int
  status : ZoneStatus
  capturedAt : Option Nat
  lastAttackAt : Option Nat
deriving DecidableEq, Repr

/-- `mission_type` enum from the schema. -/
inductive MissionType where
  | capture_zones | defend_zones | walk_distance | earn_ep | win_battles
deriving DecidableEq, Repr

/-- `mission_status` enum from the schema. -/
inductive MissionStatus where
  | active | completed | expired
deriving DecidableEq, Repr

/-- Row of the `missions` table. -/
structure Mission where
  userId : UserId
  missionType : MissionType
  targetValue : Int
  currentValue : Int
  rewardEP : Int
  status : MissionStatus
  expiresAt : Option Nat
  completedAt : Option Nat
deriving DecidableEq, Repr

/-- `notification_type` enum from the schema. -/
inductive NotificationType where
  | zone_captured | zone_lost | zone_under_attack | mission_completed
  | level_up | battle_won | battle_lost
deriving DecidableEq, Repr

/-- Row of the `notifications` table (title/message/data omitted). -/
structure Notification where
  userId : UserId
  notificationType : NotificationType
deriving DecidableEq, Repr

/-- `activity_type` enum from the schema. -/
inductive ActivityType where
  | zone_captured | zone_lost | zone_attacked | zone_defended
  | ep_earned | respect_gained | mission_completed
deriving DecidableEq, Repr

/-- Row of the append-only `activity_log` table (details jsonb omitted). -/
structure ActivityEntry where
  userId : UserId
  activityType : ActivityType
  zoneId : Option ZoneId
  epChange : Int
  respectChange : Int
deriving DecidableEq, Repr

/-- The mutable database state the engine operates on. -/
structure GameState where
  users : UserId → Option User
  zones : ZoneId → Option Zone
  missions : List Mission
  notifications : List Notification
  activityLog : List ActivityEntry

/-- Overwrite (or insert) the zone row with id `zid`. -/
def GameState.setZone (st : GameState) (zid : ZoneId) (z : Zone) : GameState :=
  { st with zones := fun i => if i = zid then some z else st.zones i }

/-- Overwrite the user row with id `uid`. -/
def GameState.setUser (st : GameState) (uid : UserId) (u : User) : GameState :=
  { st with users := fun i => if i = uid then some u else st.users i }

/-- Append a notification row (INSERT INTO notifications). -/
def GameState.notify (st : GameState) (uid : UserId) (t : NotificationType) :
    GameState :=
  { st with notifications := st.notifications ++ [⟨uid, t⟩] }

/-- Append an activity-log row (INSERT INTO activity_log). -/
def GameState.logActivity (st : GameState) (uid : UserId) (t : ActivityType)
    (zid : Option ZoneId) (ep : Int) (respect : Int) : GameState :=
  { st with activityLog := st.activityLog ++ [⟨uid, t, zid, ep, respect⟩] }

/-! ## Progression ledger: `calculate_respect_level` and `award_ep` -/

/-- SQL `calculate_respect_level`:
`GREATEST(1, LEAST(100, 1 + FLOOR(SQRT(GREATEST(0, total_ep) / 100.0))::INTEGER))`.
For an integer `n ≥ 0`, `⌊√(n / 100.0)⌋ = Nat.sqrt (n / 100)` (floor of a real
square root of a real quotient agrees with the integer square root of the
floored quotient), so the translation is exact. -/
def calculate_respect_level (totalEp : Int) : Int :=
  max 1 (min 100 (1 + (Nat.sqrt ((max 0 totalEp).toNat / 100) : Int)))

/-- Result row of `award_ep`. -/
structure EpResult where
  newTotalEp : Int
  newRespectLevel : Int
  oldRespectLevel : Int
  leveledUp : Bool
deriving DecidableEq, Repr

/-- SQL `award_ep`: validates `ep_amount > 0` (exception otherwise), requires
the user row to exist (exception otherwise), adds the amount, recomputes the
respect level, logs an `ep_earned` activity entry, and on a strict level
increase emits a `level_up` notification and a `respect_gained` entry. -/
def award_ep (uid : UserId) (amount : Int) (st : GameState) :
    Option (EpResult × GameState) :=
  if amount ≤ 0 then none else
  match st.users uid with
  | none => none
  | some u =>
    let newEp := u.totalEP + amount
    let newLevel := calculate_respect_level newEp
    let st1 := (st.setUser uid ⟨newEp, newLevel⟩).logActivity uid .ep_earned
      none amount (newLevel - u.respectLevel)
    let st2 := if u.respectLevel < newLevel then
        (st1.notify uid .level_up).logActivity uid .respect_gained none 0
          (newLevel - u.respectLevel)
      else st1
    some (⟨newEp, newLevel, u.respectLevel, decide (u.respectLevel < newLevel)⟩, st2)

/-! ## `update_mission_progress` -/

/-- The per-row test of the cursor query in `update_mission_progress`:
`WHERE user_id = p_user_id AND mission_type = p_mission_type AND status = 'active'`. -/
def missionMatches (uid : UserId) (mtype : MissionType) (m : Mission) : Bool :=
  m.userId = uid && m.missionType = mtype && m.status = .active

/-- The loop body of `update_mission_progress`, folded over the mission rows.
For each matching active mission the progress is set to
`LEAST(target_value, current_value + progress_increment)`; if the fetched
`current_value + progress_increment` reaches the target the mission is marked
completed and `award_ep`, a `mission_completed` notification and an activity
entry follow.  A failing nested `award_ep` (absent user, or non-positive
reward) aborts the whole call. -/
def missionLoop (uid : UserId) (mtype : MissionType) (inc : Int) (now : Nat) :
    List Mission → GameState → Option (List Mission × GameState)
  | [], st => some ([], st)
  | m :: rest, st =>
    if missionMatches uid mtype m then
      let m1 := { m with currentValue := min m.targetValue (m.currentValue + inc) }
      if m.currentValue + inc ≥ m.targetValue then
        match award_ep uid m.rewardEP st with
        | none => none
        | some (_, st1) =>
          let st2 := (st1.notify uid .mission_completed).logActivity uid
            .mission_completed none m.rewardEP 0
          (missionLoop uid mtype inc now rest st2).map
            (fun p => ({ m1 with status := .completed, completedAt := some now } :: p.1, p.2))
      else
        (missionLoop uid mtype inc now rest st).map (fun p => (m1 :: p.1, p.2))
    else
      (missionLoop uid mtype inc now rest st).map (fun p => (m :: p.1, p.2))

/-- SQL `update_mission_progress`. -/
def update_mission_progress (uid : UserId) (mtype : MissionType) (inc : Int)
    (now : Nat) (st : GameState) : Option GameState :=
  match missionLoop uid mtype inc now st.missions st with
  | none => none
  | some (ms, st1) => some { st1 with missions := ms }

/-! ## `attack_zone` -/

/-- Result row of `attack_zone` (`success, zone_captured, new_defense_score,
ep_awarded`; the message text is omitted). -/
inductive AttackResult where
  | notFound
  | selfAttack (currentDefense : Int)
  | captured (epAwarded : Int)
  | damaged (newDefense : Int) (epAwarded : Int)
deriving DecidableEq, Repr

/-- SQL `attack_zone`.  Validation: `attack_power` must be in `[1,50]`
(exception otherwise).  A missing zone row or an owner equal to the attacker
returns an unsuccessful result row without mutating anything.  Otherwise
`v_new_defense := GREATEST(0, defense - power)`; at `0` ownership transfers
(defense 50, status safe) with the 25-EP cascade, else the defense drops with
status `under_attack` and the 2-EP cascade.  In the transfer branch the
`zone_lost` notification insert uses the old owner as `user_id`, whose
`NOT NULL` constraint turns a null owner into an aborting exception. -/
def attack_zone (zid : ZoneId) (attacker : UserId) (power : Int) (now : Nat)
    (st : GameState) : Option (AttackResult × GameState) :=
  if power ≤ 0 ∨ power > 50 then none else
  match st.zones zid with
  | none => some (.notFound, st)
  | some z =>
    if z.ownerId = some attacker then some (.selfAttack z.defenseScore, st) else
    let newDefense := max 0 (z.defenseScore - power)
    if newDefense = 0 then
      match z.ownerId with
      | none => none
      | some owner =>
        let st1 := st.setZone zid
          { z with ownerId := some attacker, defenseScore := 50, status := .safe,
                   capturedAt := some now }
        match award_ep attacker 25 st1 with
        | none => none
        | some (_, st2) =>
          let st3 := ((((st2.notify owner .zone_lost).notify attacker
            .zone_captured).logActivity attacker .zone_captured (some zid) 25
              0).logActivity owner .zone_lost (some zid) 0 0)
          match update_mission_progress attacker .capture_zones 1 now st3 with
          | none => none
          | some st4 =>
            match update_mission_progress attacker .win_battles 1 now st4 with
            | none => none
            | some st5 => some (.captured 25, st5)
    else
      let st1 := st.setZone zid
        { z with defenseScore := newDefense, status := .under_attack,
                 lastAttackAt := some now }
      match award_ep attacker 2 st1 with
      | none => none
      | some (_, st2) =>
        some (.damaged newDefense 2,
          st2.logActivity attacker .zone_attacked (some zid) 2 0)

/-! ## `defend_zone` -/

/-- Result row of `defend_zone` (message text omitted). -/
inductive DefendResult where
  | notFound
  | notOwner (currentDefense : Int)
  | defended (newDefense : Int) (epAwarded : Int)
deriving DecidableEq, Repr

/-- The SQL test `v_owner_id != defender_id`: with a `NULL` owner the
comparison yields `NULL`, which is not true, so the branch does NOT fire. -/
def sqlOwnerDiffers (ownerId : Option UserId) (uid : UserId) : Bool :=
  match ownerId with
  | some o => o != uid
  | none => false

/-- SQL `defend_zone`.  Validation: `defense_boost` in `[1,30]` (exception
otherwise).  Missing zone → not-found row; `v_owner_id != defender_id` →
not-owner row (see `sqlOwnerDiffers`).  Otherwise defense becomes
`LEAST(100, defense + boost)`, status becomes safe when the new defense is
`≥ 70`, 5 EP are awarded and the `defend_zones` missions advance. -/
def defend_zone (zid : ZoneId) (defender : UserId) (boost : Int) (now : Nat)
    (st : GameState) : Option (DefendResult × GameState) :=
  if boost ≤ 0 ∨ boost > 30 then none else
  match st.zones zid with
  | none => some (.notFound, st)
  | some z =>
    if sqlOwnerDiffers z.ownerId defender then some (.notOwner z.defenseScore, st)
    else
      let newDefense := min 100 (z.defenseScore + boost)
      let st1 := st.setZone zid
        { z with defenseScore := newDefense,
                 status := if newDefense ≥ 70 then .safe else z.status }
      match award_ep defender 5 st1 with
      | none => none
      | some (_, st2) =>
        let st3 := st2.logActivity defender .zone_defended (some zid) 5 0
        match update_mission_progress defender .defend_zones 1 now st3 with
        | none => none
        | some st4 => some (.defended newDefense 5, st4)

/-! ## `capture_zone` -/

/-- Result row of `capture_zone` (message text omitted). -/
inductive CaptureResult where
  | captured (epAwarded : Int)
  | alreadyOwned
  | attackInitiated
deriving DecidableEq, Repr

/-- The body of SQL `capture_zone` after the coordinates have been quantized
to the grid id `zid` (the source computes
`v_zone_id := generate_grid_id(lat, lon)` and only uses `v_zone_id` from then
on).  Requires the caller's user row (exception otherwise).  A missing zone
row or a null owner leads to the create/claim branch (`INSERT ... ON CONFLICT
DO UPDATE` setting owner, defense 50, status safe, captured_at; an existing
row keeps its `last_attack_at`), with the 10-EP cascade; the caller as owner
leads to the `LEAST(100, defense + 5)` boost; a different owner flips the
zone to `under_attack` with `last_attack_at` set and notifies the owner. -/
def capture_zone_at (zid : ZoneId) (uid : UserId) (now : Nat) (st : GameState) :
    Option (CaptureResult × GameState) :=
  match st.users uid with
  | none => none
  | some _ =>
    let claim : Option Zone → Option (CaptureResult × GameState) := fun prev =>
      let st1 := st.setZone zid
        { ownerId := some uid, defenseScore := 50, status := .safe,
          capturedAt := some now,
          lastAttackAt := match prev with | some z => z.lastAttackAt | none => none }
      match award_ep uid 10 st1 with
      | none => none
      | some (_, st2) =>
        let st3 := (st2.notify uid .zone_captured).logActivity uid .zone_captured
          (some zid) 10 0
        match update_mission_progress uid .capture_zones 1 now st3 with
        | none => none
        | some st4 => some (.captured 10, st4)
    match st.zones zid with
    | none => claim none
    | some z =>
      match z.ownerId with
      | none => claim (some z)
      | some owner =>
        if owner = uid then
          some (.alreadyOwned,
            st.setZone zid { z with defenseScore := min 100 (z.defenseScore + 5) })
        else
          let st1 := st.setZone zid { z with status := .under_attack,
                                              lastAttackAt := some now }
          some (.attackInitiated,
            (st1.notify owner .zone_under_attack).logActivity uid .zone_attacked
              (some zid) 0 0)

/-! ## `create_initial_missions` -/

/-- SQL `create_initial_missions`: the fixed starter set (capture 5 zones →
50 EP, earn 100 EP → 25 EP, defend 3 times → 30 EP), each expiring 7 days
(604800 seconds) after creation. -/
def create_initial_missions (uid : UserId) (now : Nat) (st : GameState) :
    GameState :=
  { st with missions := st.missions ++
      [⟨uid, .capture_zones, 5, 0, 50, .active, some (now + 604800), none⟩,
       ⟨uid, .earn_ep, 100, 0, 25, .active, some (now + 604800), none⟩,
       ⟨uid, .defend_zones, 3, 0, 30, .active, some (now + 604800), none⟩] }

/-! ## Basic projection lemmas for the state helpers -/

section Projections
variable (st : GameState) (zid : ZoneId) (z : Zone) (uid : UserId) (u : User)
variable (nt : NotificationType) (at_ : ActivityType) (oz : Option ZoneId)
variable (ep rsp : Int)

@[simp] lemma setZone_users : (st.setZone zid z).users = st.users := rfl
@[simp] lemma setZone_missions : (st.setZone zid z).missions = st.missions := rfl
@[simp] lemma setZone_notifications :
    (st.setZone zid z).notifications = st.notifications := rfl
@[simp] lemma setZone_activityLog :
    (st.setZone zid z).activityLog = st.activityLog := rfl
@[simp] lemma setZone_zones :
    (st.setZone zid z).zones = fun i => if i = zid then some z else st.zones i := rfl

@[simp] lemma setUser_zones : (st.setUser uid u).zones = st.zones := rfl
@[simp] lemma setUser_missions : (st.setUser uid u).missions = st.missions := rfl
@[simp] lemma setUser_notifications :
    (st.setUser uid u).notifications = st.notifications := rfl
@[simp] lemma setUser_activityLog :
    (st.setUser uid u).activityLog = st.activityLog := rfl
@[simp] lemma setUser_users :
    (st.setUser uid u).users = fun i => if i = uid then some u else st.users i := rfl

@[simp] lemma notify_users : (st.notify uid nt).users = st.users := rfl
@[simp] lemma notify_zones : (st.notify uid nt).zones = st.zones := rfl
@[simp] lemma notify_missions : (st.notify uid nt).missions = st.missions := rfl
@[simp] lemma notify_activityLog :
    (st.notify uid nt).activityLog = st.activityLog := rfl
@[simp] lemma notify_notifications :
    (st.notify uid nt).notifications = st.notifications ++ [⟨uid, nt⟩] := rfl

@[simp] lemma logActivity_users :
    (st.logActivity uid at_ oz ep rsp).users = st.users := rfl
@[simp] lemma logActivity_zones :
    (st.logActivity uid at_ oz ep rsp).zones = st.zones := rfl
@[simp] lemma logActivity_missions :
    (st.logActivity uid at_ oz ep rsp).missions = st.missions := rfl
@[simp] lemma logActivity_notifications :
    (st.logActivity uid at_ oz ep rsp).notifications = st.notifications := rfl
@[simp] lemma logActivity_activityLog :
    (st.logActivity uid at_ oz ep rsp).activityLog =
      st.activityLog ++ [⟨uid, at_, oz, ep, rsp⟩] := rfl

end Projections

/-! ## Anatomy of `award_ep` -/

/-- The user table after a successful `award_ep`. -/
lemma award_ep_users {uid : UserId} {amount : Int} {st : GameState}
    {r : EpResult} {st1 : GameState} (h : award_ep uid amount st = some (r, st1)) :
    ∃ u, st.users uid = some u ∧ 0 < amount ∧
      st1.users = fun i => if i = uid then
        some ⟨u.totalEP + amount, calculate_respect_level (u.totalEP + amount)⟩
        else st.users i := by
  unfold award_ep at h
  split at h
  · exact absurd h (by simp)
  next hamt =>
    cases hu : st.users uid with
    | none => rw [hu] at h; exact absurd h (by simp)
    | some u =>
      refine ⟨u, rfl, by omega, ?_⟩
      rw [hu] at h
      simp only [] at h
      split at h
      all_goals
        simp only [Option.some.injEq, Prod.mk.injEq] at h
        rw [← h.2]
        simp

/-- `award_ep` never touches the zone table. -/
lemma award_ep_zones {uid : UserId} {amount : Int} {st : GameState}
    {r : EpResult} {st1 : GameState} (h : award_ep uid amount st = some (r, st1)) :
    st1.zones = st.zones := by
  unfold award_ep at h
  split at h
  · exact absurd h (by simp)
  · cases hu : st.users uid with
    | none => rw [hu] at h; exact absurd h (by simp)
    | some u =>
      rw [hu] at h; simp only [] at h
      split at h
      all_goals
        simp only [Option.some.injEq, Prod.mk.injEq] at h
        rw [← h.2]
        simp

/-- `award_ep` never touches the mission table. -/
lemma award_ep_missions {uid : UserId} {amount : Int} {st : GameState}
    {r : EpResult} {st1 : GameState} (h : award_ep uid amount st = some (r, st1)) :
    st1.missions = st.missions := by
  unfold award_ep at h
  split at h
  · exact absurd h (by simp)
  · cases hu : st.users uid with
    | none => rw [hu] at h; exact absurd h (by simp)
    | some u =>
      rw [hu] at h; simp only [] at h
      split at h
      all_goals
        simp only [Option.some.injEq, Prod.mk.injEq] at h
        rw [← h.2]
        simp

/-- `award_ep` only appends to the notification table, and everything it
appends is a `level_up` notification for the awarded user. -/
lemma award_ep_notifications {uid : UserId} {amount : Int} {st : GameState}
    {r : EpResult} {st1 : GameState} (h : award_ep uid amount st = some (r, st1)) :
    ∃ extra, st1.notifications = st.notifications ++ extra ∧
      ∀ n ∈ extra, n.userId = uid ∧ n.notificationType = .level_up := by
  unfold award_ep at h
  split at h
  · exact absurd h (by simp)
  · cases hu : st.users uid with
    | none => rw [hu] at h; exact absurd h (by simp)
    | some u =>
      rw [hu] at h; simp only [] at h
      split at h
      · simp only [Option.some.injEq, Prod.mk.injEq] at h
        rw [← h.2]
        refine ⟨[⟨uid, NotificationType.level_up⟩], by simp, ?_⟩
        intro x hx
        simp only [List.mem_singleton] at hx
        subst hx
        exact ⟨rfl, rfl⟩
      · simp only [Option.some.injEq, Prod.mk.injEq] at h
        rw [← h.2]
        refine ⟨[], by simp, ?_⟩
        intro x hx
        simp at hx

/-- `award_ep` only appends to the activity log, and everything it appends is
an `ep_earned` or `respect_gained` entry for the awarded user. -/
lemma award_ep_activityLog {uid : UserId} {amount : Int} {st : GameState}
    {r : EpResult} {st1 : GameState} (h : award_ep uid amount st = some (r, st1)) :
    ∃ extra, st1.activityLog = st.activityLog ++ extra ∧
      ∀ e ∈ extra, e.userId = uid ∧
        (e.activityType = .ep_earned ∨ e.activityType = .respect_gained) := by
  unfold award_ep at h
  split at h
  · exact absurd h (by simp)
  · cases hu : st.users uid with
    | none => rw [hu] at h; exact absurd h (by simp)
    | some u =>
      rw [hu] at h; simp only [] at h
      split at h
      · simp only [Option.some.injEq, Prod.mk.injEq] at h
        rw [← h.2]
        refine ⟨[⟨uid, ActivityType.ep_earned, none, amount,
            calculate_respect_level (u.totalEP + amount) - u.respectLevel⟩,
          ⟨uid, ActivityType.respect_gained, none, 0,
            calculate_respect_level (u.totalEP + amount) - u.respectLevel⟩],
          by simp, ?_⟩
        intro x hx
        simp only [List.mem_cons, List.mem_singleton, List.not_mem_nil,
          or_false] at hx
        rcases hx with rfl | rfl
        · exact ⟨rfl, Or.inl rfl⟩
        · exact ⟨rfl, Or.inr rfl⟩
      · simp only [Option.some.injEq, Prod.mk.injEq] at h
        rw [← h.2]
        refine ⟨[⟨uid, ActivityType.ep_earned, none, amount,
            calculate_respect_level (u.totalEP + amount) - u.respectLevel⟩],
          by simp, ?_⟩
        intro x hx
        simp only [List.mem_singleton] at hx
        subst hx
        exact ⟨rfl, Or.inl rfl⟩

/-- A successful `award_ep` exists whenever the amount is positive and the
user row exists, and its state effect is explicit. -/
lemma award_ep_isSome {uid : UserId} {amount : Int} {st : GameState} {u : User}
    (hu : st.users uid = some u) (hamt : 0 < amount) :
    ∃ r st1, award_ep uid amount st = some (r, st1) := by
  unfold award_ep
  rw [if_neg (by omega), hu]
  exact ⟨_, _, rfl⟩

/-! ## Anatomy of `update_mission_progress` -/

/-- The per-mission effect of one `update_mission_progress` call. -/
def missionUpdate (uid : UserId) (mtype : MissionType) (inc : Int) (now : Nat)
    (m : Mission) : Mission :=
  if missionMatches uid mtype m then
    let m1 := { m with currentValue := min m.targetValue (m.currentValue + inc) }
    if m.currentValue + inc ≥ m.targetValue then
      { m1 with status := .completed, completedAt := some now }
    else m1
  else m

/-- Whether a mission row completes during this `update_mission_progress`
call (it is a matching active row and the fetched progress reaches the
target). -/
def completingNow (uid : UserId) (mtype : MissionType) (inc : Int)
    (m : Mission) : Bool :=
  missionMatches uid mtype m && decide (m.currentValue + inc ≥ m.targetValue)

/-- The sum of rewards of the missions completing during the call. -/
def rewardSum (uid : UserId) (mtype : MissionType) (inc : Int)
    (ms : List Mission) : Int :=
  ((ms.filter (completingNow uid mtype inc)).map Mission.rewardEP).sum

/-- A successful mission loop rewrites the processed rows pointwise by
`missionUpdate`. -/
lemma missionLoop_map {uid : UserId} {mtype : MissionType} {inc : Int}
    {now : Nat} {ms : List Mission} {st : GameState} {ms1 : List Mission}
    {st1 : GameState} (h : missionLoop uid mtype inc now ms st = some (ms1, st1)) :
    ms1 = ms.map (missionUpdate uid mtype inc now) := by
  induction ms generalizing st ms1 st1 with
  | nil =>
    simp only [missionLoop, Option.some.injEq, Prod.mk.injEq] at h
    simp [← h.1]
  | cons m rest ih =>
    rw [missionLoop] at h
    by_cases hm : missionMatches uid mtype m
    · rw [if_pos hm] at h
      by_cases hc : m.currentValue + inc ≥ m.targetValue
      · rw [if_pos hc] at h
        cases ha : award_ep uid m.rewardEP st with
        | none => rw [ha] at h; exact absurd h (by simp)
        | some p =>
          obtain ⟨r, stA⟩ := p
          rw [ha] at h
          simp only [Option.map_eq_some'] at h
          obtain ⟨⟨msR, stR⟩, hloop, heq⟩ := h
          simp only [Prod.mk.injEq] at heq
          rw [← heq.1, ih hloop]
          simp [List.map_cons, missionUpdate, hm, hc]
      · rw [if_neg hc] at h
        simp only [Option.map_eq_some'] at h
        obtain ⟨⟨msR, stR⟩, hloop, heq⟩ := h
        simp only [Prod.mk.injEq] at heq
        rw [← heq.1, ih hloop]
        simp [List.map_cons, missionUpdate, hm, hc]
    · rw [if_neg hm] at h
      simp only [Option.map_eq_some'] at h
      obtain ⟨⟨msR, stR⟩, hloop, heq⟩ := h
      simp only [Prod.mk.injEq] at heq
      rw [← heq.1, ih hloop]
      simp [List.map_cons, missionUpdate, hm]

/-- State effects of a successful mission loop: zones and the mission field
of the threaded state are untouched, other users are untouched, notification
and activity tables only grow, and the subject user's EP grows by exactly the
rewards of the completing missions, with the respect level recomputed by the
last nested `award_ep` (if any). -/
lemma missionLoop_effects {uid : UserId} {mtype : MissionType} {inc : Int}
    {now : Nat} {ms : List Mission} {st : GameState} {ms1 : List Mission}
    {st1 : GameState} (h : missionLoop uid mtype inc now ms st = some (ms1, st1)) :
    st1.zones = st.zones ∧ st1.missions = st.missions ∧
    (∀ i, i ≠ uid → st1.users i = st.users i) ∧
    (∃ eN, st1.notifications = st.notifications ++ eN) ∧
    (∃ eA, st1.activityLog = st.activityLog ++ eA) ∧
    (∀ u, st.users uid = some u → ∃ u1, st1.users uid = some u1 ∧
      u1.totalEP = u.totalEP + rewardSum uid mtype inc ms ∧
      u.totalEP ≤ u1.totalEP ∧
      (u1 = u ∨ u1.respectLevel = calculate_respect_level u1.totalEP)) ∧
    (st.users uid = none → st1.users uid = none) := by
  induction ms generalizing st ms1 st1 with
  | nil =>
    simp only [missionLoop, Option.some.injEq, Prod.mk.injEq] at h
    rw [← h.2]
    exact ⟨rfl, rfl, fun i _ => rfl, ⟨[], by simp⟩, ⟨[], by simp⟩,
      fun u hu => ⟨u, hu, by simp [rewardSum], le_refl _, Or.inl rfl⟩,
      fun hnone => hnone⟩
  | cons m rest ih =>
    rw [missionLoop] at h
    by_cases hm : missionMatches uid mtype m
    · rw [if_pos hm] at h
      by_cases hc : m.currentValue + inc ≥ m.targetValue
      · rw [if_pos hc] at h
        cases ha : award_ep uid m.rewardEP st with
        | none => rw [ha] at h; exact absurd h (by simp)
        | some p =>
          obtain ⟨r, stA⟩ := p
          rw [ha] at h
          simp only [Option.map_eq_some'] at h
          obtain ⟨⟨msR, stR⟩, hloop, heq⟩ := h
          simp only [Prod.mk.injEq] at heq
          obtain ⟨uA, huA, hpos, husers⟩ := award_ep_users ha
          obtain ⟨hz, hms, hoth, ⟨eN, hN⟩, ⟨eA, hA⟩, hep, hnone⟩ := ih hloop
          have hzA := award_ep_zones ha
          have hmsA := award_ep_missions ha
          obtain ⟨eNA, hNA, _⟩ := award_ep_notifications ha
          obtain ⟨eAA, hAA, _⟩ := award_ep_activityLog ha
          rw [← heq.2]
          refine ⟨by simp [hz, hzA], by simp [hms, hmsA], ?_, ?_, ?_, ?_, ?_⟩
          · intro i hi
            rw [hoth i hi]
            simp [husers, if_neg hi]
          · refine ⟨eNA ++ [⟨uid, .mission_completed⟩] ++ eN, ?_⟩
            rw [hN]; simp [hNA]
          · refine ⟨eAA ++ [⟨uid, .mission_completed, none, m.rewardEP, 0⟩] ++ eA, ?_⟩
            rw [hA]; simp [hAA]
          · intro u hu
            rw [hu] at huA
            injection huA with huu
            subst huu
            have huAafter :
                ((stA.notify uid .mission_completed).logActivity uid
                  .mission_completed none m.rewardEP 0).users uid =
                some ⟨u.totalEP + m.rewardEP,
                  calculate_respect_level (u.totalEP + m.rewardEP)⟩ := by
              simp [husers]
            obtain ⟨u1, hu1, hsum, hmono, hlvl⟩ := hep _ huAafter
            refine ⟨u1, hu1, ?_, ?_, ?_⟩
            · rw [hsum]
              simp only [rewardSum, List.filter_cons,
                completingNow, hm, Bool.true_and, decide_eq_true_eq]
              rw [if_pos (by simpa using hc)]
              simp [add_assoc]
            · calc u.totalEP ≤ u.totalEP + m.rewardEP := by omega
                _ ≤ u1.totalEP := hmono
            · rcases hlvl with h1 | h1
              · right; rw [h1]
              · right; exact h1
          · intro h0
            rw [h0] at huA
            exact absurd huA (by simp)
      · rw [if_neg hc] at h
        simp only [Option.map_eq_some'] at h
        obtain ⟨⟨msR, stR⟩, hloop, heq⟩ := h
        simp only [Prod.mk.injEq] at heq
        obtain ⟨hz, hms, hoth, hN, hA, hep, hnone⟩ := ih hloop
        rw [← heq.2]
        refine ⟨hz, hms, hoth, hN, hA, ?_, hnone⟩
        intro u hu
        obtain ⟨u1, hu1, hsum, hmono, hlvl⟩ := hep u hu
        refine ⟨u1, hu1, ?_, hmono, hlvl⟩
        rw [hsum]
        simp only [rewardSum, List.filter_cons, completingNow, hm,
          Bool.true_and, decide_eq_true_eq]
        rw [if_neg (by simpa using hc)]
    · rw [if_neg hm] at h
      simp only [Option.map_eq_some'] at h
      obtain ⟨⟨msR, stR⟩, hloop, heq⟩ := h
      simp only [Prod.mk.injEq] at heq
      obtain ⟨hz, hms, hoth, hN, hA, hep, hnone⟩ := ih hloop
      rw [← heq.2]
      refine ⟨hz, hms, hoth, hN, hA, ?_, hnone⟩
      intro u hu
      obtain ⟨u1, hu1, hsum, hmono, hlvl⟩ := hep u hu
      refine ⟨u1, hu1, ?_, hmono, hlvl⟩
      rw [hsum]
      simp only [rewardSum, List.filter_cons, completingNow, hm]
      simp

/-- When no matching mission stands to complete, the mission loop succeeds
and leaves the threaded state untouched. -/
lemma missionLoop_noComplete {uid : UserId} {mtype : MissionType} {inc : Int}
    {now : Nat} {ms : List Mission} (st : GameState)
    (h : ∀ m ∈ ms, completingNow uid mtype inc m = false) :
    missionLoop uid mtype inc now ms st =
      some (ms.map (missionUpdate uid mtype inc now), st) := by
  induction ms generalizing st with
  | nil => simp [missionLoop]
  | cons m rest ih =>
    have hm := h m (by simp)
    have hrest : ∀ x ∈ rest, completingNow uid mtype inc x = false :=
      fun x hx => h x (by simp [hx])
    rw [missionLoop]
    by_cases hmm : missionMatches uid mtype m
    · have hc : ¬(m.currentValue + inc ≥ m.targetValue) := by
        simp only [completingNow, hmm, Bool.true_and, decide_eq_true_eq] at hm
        simpa using hm
      rw [if_pos hmm, if_neg hc, ih st hrest]
      simp [missionUpdate, hmm, hc]
    · rw [if_neg hmm, ih st hrest]
      simp [missionUpdate, hmm]

/-- `update_mission_progress` when no matching mission stands to complete:
only the mission rows change, pointwise by `missionUpdate`. -/
lemma update_mission_progress_noComplete {uid : UserId} {mtype : MissionType}
    {inc : Int} {now : Nat} {st : GameState}
    (h : ∀ m ∈ st.missions, completingNow uid mtype inc m = false) :
    update_mission_progress uid mtype inc now st =
      some { st with missions := st.missions.map (missionUpdate uid mtype inc now) } := by
  unfold update_mission_progress
  rw [missionLoop_noComplete st h]

/-- Effects of a successful `update_mission_progress` call. -/
lemma update_mission_progress_effects {uid : UserId} {mtype : MissionType}
    {inc : Int} {now : Nat} {st st1 : GameState}
    (h : update_mission_progress uid mtype inc now st = some st1) :
    st1.missions = st.missions.map (missionUpdate uid mtype inc now) ∧
    st1.zones = st.zones ∧
    (∀ i, i ≠ uid → st1.users i = st.users i) ∧
    (∃ eN, st1.notifications = st.notifications ++ eN) ∧
    (∃ eA, st1.activityLog = st.activityLog ++ eA) ∧
    (∀ u, st.users uid = some u → ∃ u1, st1.users uid = some u1 ∧
      u1.totalEP = u.totalEP + rewardSum uid mtype inc st.missions ∧
      u.totalEP ≤ u1.totalEP ∧
      (u1 = u ∨ u1.respectLevel = calculate_respect_level u1.totalEP)) ∧
    (st.users uid = none → st1.users uid = none) := by
  unfold update_mission_progress at h
  cases hml : missionLoop uid mtype inc now st.missions st with
  | none => rw [hml] at h; exact absurd h (by simp)
  | some p =>
    obtain ⟨ms1, st0⟩ := p
    rw [hml] at h
    simp only [Option.some.injEq] at h
    obtain ⟨hz, _, hoth, hN, hA, hep, hnone⟩ := missionLoop_effects hml
    have hmap := missionLoop_map hml
    rw [← h]
    exact ⟨hmap, hz, hoth, hN, hA, hep, hnone⟩

/-- Build a `Forall₂` along a pointwise map. -/
lemma forall₂_of_map {α β : Type} {P : α → β → Prop} {f : α → β} :
    ∀ l : List α, (∀ a ∈ l, P a (f a)) → List.Forall₂ P l (l.map f)
  | [], _ => List.Forall₂.nil
  | a :: l, h => List.Forall₂.cons (h a (by simp))
      (forall₂_of_map l (fun x hx => h x (by simp [hx])))

/-! ## Invariants -/

/-- Schema invariant `defense_score >= 0 AND defense_score <= 100`. -/
def zoneDefInv (st : GameState) : Prop :=
  ∀ zid z, st.zones zid = some z → 0 ≤ z.defenseScore ∧ z.defenseScore ≤ 100

/-- Spec invariant: `ownerId = null ⇔ status = neutral`, for every zone row. -/
def zoneOwnerInv (st : GameState) : Prop :=
  ∀ zid z, st.zones zid = some z → (z.ownerId = none ↔ z.status = .neutral)

/-- Spec invariant: every stored respect level equals the formula applied to
the stored total EP. -/
def levelInv (st : GameState) : Prop :=
  ∀ i u, st.users i = some u → u.respectLevel = calculate_respect_level u.totalEP

/-- Per-user EP monotonicity between two states: every user row survives with
at least its old total EP. -/
def epMono (st st1 : GameState) : Prop :=
  ∀ i u, st.users i = some u → ∃ u1, st1.users i = some u1 ∧ u.totalEP ≤ u1.totalEP

lemma epMono_refl (st : GameState) : epMono st st :=
  fun _ u hu => ⟨u, hu, le_refl _⟩

lemma epMono_trans {st1 st2 st3 : GameState} (h12 : epMono st1 st2)
    (h23 : epMono st2 st3) : epMono st1 st3 := by
  intro i u hu
  obtain ⟨u2, hu2, hle2⟩ := h12 i u hu
  obtain ⟨u3, hu3, hle3⟩ := h23 i u2 hu2
  exact ⟨u3, hu3, le_trans hle2 hle3⟩

/-- Pointwise preservation of `earn_ep` mission rows between two states. -/
def preservesEarnEp (ms ms1 : List Mission) : Prop :=
  List.Forall₂ (fun m m1 => m.missionType = .earn_ep → m1 = m) ms ms1

lemma preservesEarnEp_refl (ms : List Mission) : preservesEarnEp ms ms := by
  induction ms with
  | nil => exact List.Forall₂.nil
  | cons m rest ih => exact List.Forall₂.cons (fun _ => rfl) ih

lemma preservesEarnEp_trans {ms1 ms2 ms3 : List Mission}
    (h12 : preservesEarnEp ms1 ms2) (h23 : preservesEarnEp ms2 ms3) :
    preservesEarnEp ms1 ms3 := by
  induction h12 generalizing ms3 with
  | nil => cases h23; exact List.Forall₂.nil
  | cons hab hrest ih =>
    cases h23 with
    | cons hbc hrest2 =>
      refine List.Forall₂.cons ?_ (ih hrest2)
      intro he
      rw [hbc (by rw [hab he, he]), hab he]

/-- `missionUpdate` for a non-`earn_ep` call type fixes `earn_ep` rows. -/
lemma missionUpdate_earnEp {uid : UserId} {mtype : MissionType} {inc : Int}
    {now : Nat} (hne : mtype ≠ .earn_ep) (m : Mission)
    (he : m.missionType = .earn_ep) : missionUpdate uid mtype inc now m = m := by
  unfold missionUpdate
  rw [if_neg]
  unfold missionMatches
  simp only [Bool.and_eq_true, decide_eq_true_eq]
  rintro ⟨⟨_, hty⟩, _⟩
  exact hne (hty.symm.trans he)

/-! ## Effect summaries of the operations -/

/-- Effects of a successful `award_ep` on the invariants. -/
lemma award_ep_invariants {uid : UserId} {amount : Int} {st : GameState}
    {r : EpResult} {st1 : GameState}
    (h : award_ep uid amount st = some (r, st1)) :
    epMono st st1 ∧ (levelInv st → levelInv st1) ∧
    st1.zones = st.zones ∧ st1.missions = st.missions := by
  obtain ⟨u, hu, hpos, husers⟩ := award_ep_users h
  refine ⟨?_, ?_, award_ep_zones h, award_ep_missions h⟩
  · intro i v hv
    by_cases hi : i = uid
    · subst hi
      rw [hu] at hv
      injection hv with hv
      subst hv
      refine ⟨⟨u.totalEP + amount, calculate_respect_level (u.totalEP + amount)⟩,
        ?_, ?_⟩
      · rw [husers]; simp
      · show u.totalEP ≤ u.totalEP + amount
        omega
    · refine ⟨v, ?_, le_refl _⟩
      rw [husers]
      simp [hi, hv]
  · intro hlv i v hv
    simp only [husers] at hv
    by_cases hi : i = uid
    · rw [if_pos hi] at hv
      injection hv with hv
      rw [← hv]
    · rw [if_neg hi] at hv
      exact hlv i v hv

/-- Effects of a successful `update_mission_progress` on the invariants. -/
lemma update_mission_progress_invariants {uid : UserId} {mtype : MissionType}
    {inc : Int} {now : Nat} {st st1 : GameState}
    (h : update_mission_progress uid mtype inc now st = some st1) :
    epMono st st1 ∧ (levelInv st → levelInv st1) ∧
    st1.zones = st.zones ∧
    (mtype ≠ .earn_ep → preservesEarnEp st.missions st1.missions) := by
  obtain ⟨hmap, hz, hoth, _, _, hep, hnone⟩ := update_mission_progress_effects h
  refine ⟨?_, ?_, hz, ?_⟩
  · intro i v hv
    by_cases hi : i = uid
    · subst hi
      obtain ⟨u1, hu1, _, hmono, _⟩ := hep v hv
      exact ⟨u1, hu1, hmono⟩
    · exact ⟨v, by rw [hoth i hi, hv], le_refl _⟩
  · intro hlv i v hv
    by_cases hi : i = uid
    · subst hi
      cases hu : st.users i with
      | none => rw [hnone hu] at hv; exact absurd hv (by simp)
      | some u =>
        obtain ⟨u1, hu1, _, _, hlvl⟩ := hep u hu
        rw [hu1] at hv
        injection hv with hv
        subst hv
        rcases hlvl with h1 | h1
        · rw [h1]; exact hlv i u hu
        · exact h1
    · rw [hoth i hi] at hv
      exact hlv i v hv
  · intro hne
    rw [hmap]
    exact forall₂_of_map _ (fun m _ hm => (missionUpdate_earnEp hne m hm).symm ▸ rfl)

/-- Effects of a successful `attack_zone` call: parameter bounds, invariant
wiring, untouched foreign zones, and the two possible shapes of the attacked
zone row. -/
lemma attack_zone_effects {zid : ZoneId} {attacker : UserId} {power : Int}
    {now : Nat} {st : GameState} {r : AttackResult} {st1 : GameState}
    (h : attack_zone zid attacker power now st = some (r, st1)) :
    (0 < power ∧ power ≤ 50) ∧
    epMono st st1 ∧ (levelInv st → levelInv st1) ∧
    preservesEarnEp st.missions st1.missions ∧
    (∀ zid2, zid2 ≠ zid → st1.zones zid2 = st.zones zid2) ∧
    (st1.zones zid = st.zones zid ∨
      ∃ z, st.zones zid = some z ∧ z.ownerId ≠ some attacker ∧
        ((st1.zones zid = some { z with ownerId := some attacker,
                                         defenseScore := 50, status := .safe,
                                         capturedAt := some now } ∧
          z.ownerId ≠ none) ∨
         (st1.zones zid = some { z with
                                         defenseScore := max 0 (z.defenseScore - power),
                                         status := .under_attack,
                                         lastAttackAt := some now } ∧
          max 0 (z.defenseScore - power) ≠ 0))) := by
  unfold attack_zone at h
  split at h
  · exact absurd h (by simp)
  next hpow =>
    have hpow2 : 0 < power ∧ power ≤ 50 := by
      push_neg at hpow
      omega
    cases hz : st.zones zid with
    | none =>
      rw [hz] at h
      simp only [Option.some.injEq, Prod.mk.injEq] at h
      rw [← h.2]
      exact ⟨hpow2, epMono_refl st, fun hv => hv, preservesEarnEp_refl _,
        fun _ _ => rfl, Or.inl hz⟩
    | some z =>
      rw [hz] at h
      simp only [] at h
      split at h
      · simp only [Option.some.injEq, Prod.mk.injEq] at h
        rw [← h.2]
        exact ⟨hpow2, epMono_refl st, fun hv => hv, preservesEarnEp_refl _,
          fun _ _ => rfl, Or.inl hz⟩
      next hself =>
        split at h
        next hcap =>
          cases hown : z.ownerId with
          | none => rw [hown] at h; exact absurd h (by simp)
          | some owner =>
            rw [hown] at h
            cases ha : award_ep attacker 25 (st.setZone zid { z with
                ownerId := some attacker, defenseScore := 50, status := .safe,
                capturedAt := some now }) with
            | none => rw [ha] at h; exact absurd h (by simp)
            | some p =>
              obtain ⟨rA, stA⟩ := p
              rw [ha] at h
              simp only [] at h
              cases hu1 : update_mission_progress attacker .capture_zones 1 now
                  ((((stA.notify owner .zone_lost).notify attacker
                    .zone_captured).logActivity attacker .zone_captured
                      (some zid) 25 0).logActivity owner .zone_lost (some zid)
                        0 0) with
              | none => rw [hu1] at h; exact absurd h (by simp)
              | some stB =>
                rw [hu1] at h
                simp only [] at h
                cases hu2 : update_mission_progress attacker .win_battles 1 now
                    stB with
                | none => rw [hu2] at h; exact absurd h (by simp)
                | some stC =>
                  rw [hu2] at h
                  simp only [Option.some.injEq, Prod.mk.injEq] at h
                  obtain ⟨hmonoA, hlvlA, hzA, hmsA⟩ := award_ep_invariants ha
                  obtain ⟨hmono1, hlvl1, hz1, hms1⟩ :=
                    update_mission_progress_invariants hu1
                  obtain ⟨hmono2, hlvl2, hz2, hms2⟩ :=
                    update_mission_progress_invariants hu2
                  rw [← h.2]
                  refine ⟨hpow2, ?_, ?_, ?_, ?_, ?_⟩
                  · refine epMono_trans (epMono_trans (epMono_trans ?_ hmonoA)
                      (by simpa using hmono1)) hmono2
                    intro i u hu
                    exact ⟨u, by simpa using hu, le_refl _⟩
                  · intro hlv
                    refine hlvl2 (hlvl1 (hlvlA ?_))
                    intro i u hu
                    exact hlv i u (by simpa using hu)
                  · refine preservesEarnEp_trans (preservesEarnEp_trans
                      (preservesEarnEp_trans (preservesEarnEp_refl st.missions)
                        ?_) (by simpa using hms1 (by simp))) (hms2 (by simp))
                    rw [hmsA]
                    exact preservesEarnEp_refl _
                  · intro zid2 hzid2
                    rw [hz2, hz1]
                    simp only [notify_zones, logActivity_zones]
                    rw [hzA]
                    simp [hzid2]
                  · refine Or.inr ⟨z, rfl, hself,
                      Or.inl ⟨?_, by rw [hown]; simp⟩⟩
                    rw [hz2, hz1]
                    simp only [notify_zones, logActivity_zones]
                    rw [hzA]
                    simp
        next hcap =>
          cases ha : award_ep attacker 2 (st.setZone zid { z with
              defenseScore := max 0 (z.defenseScore - power),
              status := .under_attack, lastAttackAt := some now }) with
          | none => rw [ha] at h; exact absurd h (by simp)
          | some p =>
            obtain ⟨rA, stA⟩ := p
            rw [ha] at h
            simp only [Option.some.injEq, Prod.mk.injEq] at h
            obtain ⟨hmonoA, hlvlA, hzA, hmsA⟩ := award_ep_invariants ha
            rw [← h.2]
            refine ⟨hpow2, ?_, ?_, ?_, ?_, ?_⟩
            · refine epMono_trans ?_ (by simpa using hmonoA)
              intro i u hu
              exact ⟨u, by simpa using hu, le_refl _⟩
            · intro hlv
              have := hlvlA (fun i u hu => hlv i u (by simpa using hu))
              intro i u hu
              exact this i u (by simpa using hu)
            · simp only [logActivity_missions]
              rw [hmsA]
              simp only [setZone_missions]
              exact preservesEarnEp_refl _
            · intro zid2 hzid2
              simp only [logActivity_zones]
              rw [hzA]
              simp [hzid2]
            · refine Or.inr ⟨z, rfl, hself, Or.inr ⟨?_, hcap⟩⟩
              simp only [logActivity_zones]
              rw [hzA]
              simp

/-- Effects of a successful `defend_zone` call. -/
lemma defend_zone_effects {zid : ZoneId} {defender : UserId} {boost : Int}
    {now : Nat} {st : GameState} {r : DefendResult} {st1 : GameState}
    (h : defend_zone zid defender boost now st = some (r, st1)) :
    (0 < boost ∧ boost ≤ 30) ∧
    epMono st st1 ∧ (levelInv st → levelInv st1) ∧
    preservesEarnEp st.missions st1.missions ∧
    (∀ zid2, zid2 ≠ zid → st1.zones zid2 = st.zones zid2) ∧
    (st1.zones zid = st.zones zid ∨
      ∃ z, st.zones zid = some z ∧ sqlOwnerDiffers z.ownerId defender = false ∧
        st1.zones zid = some { z with
          defenseScore := min 100 (z.defenseScore + boost),
          status := if min 100 (z.defenseScore + boost) ≥ 70 then .safe
                    else z.status }) := by
  unfold defend_zone at h
  split at h
  · exact absurd h (by simp)
  next hboost =>
    have hboost2 : 0 < boost ∧ boost ≤ 30 := by
      push_neg at hboost
      omega
    cases hz : st.zones zid with
    | none =>
      rw [hz] at h
      simp only [Option.some.injEq, Prod.mk.injEq] at h
      rw [← h.2]
      exact ⟨hboost2, epMono_refl st, fun hv => hv, preservesEarnEp_refl _,
        fun _ _ => rfl, Or.inl hz⟩
    | some z =>
      rw [hz] at h
      simp only [] at h
      split at h
      · simp only [Option.some.injEq, Prod.mk.injEq] at h
        rw [← h.2]
        exact ⟨hboost2, epMono_refl st, fun hv => hv, preservesEarnEp_refl _,
          fun _ _ => rfl, Or.inl hz⟩
      next hnotown =>
        cases ha : award_ep defender 5 (st.setZone zid { z with
            defenseScore := min 100 (z.defenseScore + boost),
            status := if min 100 (z.defenseScore + boost) ≥ 70 then .safe
                      else z.status }) with
        | none => rw [ha] at h; exact absurd h (by simp)
        | some p =>
          obtain ⟨rA, stA⟩ := p
          rw [ha] at h
          simp only [] at h
          cases hu1 : update_mission_progress defender .defend_zones 1 now
              (stA.logActivity defender .zone_defended (some zid) 5 0) with
          | none => rw [hu1] at h; exact absurd h (by simp)
          | some stB =>
            rw [hu1] at h
            simp only [Option.some.injEq, Prod.mk.injEq] at h
            obtain ⟨hmonoA, hlvlA, hzA, hmsA⟩ := award_ep_invariants ha
            obtain ⟨hmono1, hlvl1, hz1, hms1⟩ :=
              update_mission_progress_invariants hu1
            rw [← h.2]
            refine ⟨hboost2, ?_, ?_, ?_, ?_, ?_⟩
            · refine epMono_trans (epMono_trans ?_ (by simpa using hmonoA))
                (by simpa using hmono1)
              intro i u hu
              exact ⟨u, by simpa using hu, le_refl _⟩
            · intro hlv
              refine hlvl1 ?_
              have := hlvlA (fun i u hu => hlv i u (by simpa using hu))
              intro i u hu
              exact this i u (by simpa using hu)
            · refine preservesEarnEp_trans ?_ (by simpa using hms1 (by simp))
              try simp only [logActivity_missions]
              rw [hmsA]
              try simp only [setZone_missions]
              exact preservesEarnEp_refl _
            · intro zid2 hzid2
              rw [hz1]
              simp only [logActivity_zones]
              rw [hzA]
              simp [hzid2]
            · refine Or.inr ⟨z, rfl, by simpa using hnotown, ?_⟩
              rw [hz1]
              simp only [logActivity_zones]
              rw [hzA]
              simp

/-- Effects of a successful `capture_zone_at` call. -/
lemma capture_zone_at_effects {zid : ZoneId} {uid : UserId} {now : Nat}
    {st : GameState} {r : CaptureResult} {st1 : GameState}
    (h : capture_zone_at zid uid now st = some (r, st1)) :
    epMono st st1 ∧ (levelInv st → levelInv st1) ∧
    preservesEarnEp st.missions st1.missions ∧
    (∀ zid2, zid2 ≠ zid → st1.zones zid2 = st.zones zid2) ∧
    ((∃ la, st1.zones zid = some ⟨some uid, 50, .safe, some now, la⟩) ∨
     (∃ z, st.zones zid = some z ∧
       ((st1.zones zid = some { z with
            defenseScore := min 100 (z.defenseScore + 5) } ∧
         z.ownerId = some uid) ∨
        (∃ ow, z.ownerId = some ow ∧ ow ≠ uid ∧
          st1.zones zid = some { z with status := .under_attack,
                                        lastAttackAt := some now })))) := by
  unfold capture_zone_at at h
  cases hu : st.users uid with
  | none => rw [hu] at h; exact absurd h (by simp)
  | some u0 =>
    rw [hu] at h
    simp only [] at h
    have hclaim : ∀ (la0 : Option Nat),
        (match award_ep uid 10 (st.setZone zid
            { ownerId := some uid, defenseScore := 50, status := .safe,
              capturedAt := some now, lastAttackAt := la0 }) with
          | none => none
          | some (_, st2) =>
            match update_mission_progress uid .capture_zones 1 now
                ((st2.notify uid .zone_captured).logActivity uid .zone_captured
                  (some zid) 10 0) with
            | none => none
            | some st4 => some (CaptureResult.captured 10, st4)) = some (r, st1) →
        epMono st st1 ∧ (levelInv st → levelInv st1) ∧
        preservesEarnEp st.missions st1.missions ∧
        (∀ zid2, zid2 ≠ zid → st1.zones zid2 = st.zones zid2) ∧
        (∃ la, st1.zones zid = some ⟨some uid, 50, .safe, some now, la⟩) := by
      intro la0 hcl
      cases ha : award_ep uid 10 (st.setZone zid
          { ownerId := some uid, defenseScore := 50, status := .safe,
            capturedAt := some now, lastAttackAt := la0 }) with
      | none => rw [ha] at hcl; exact absurd hcl (by simp)
      | some p =>
        obtain ⟨rA, stA⟩ := p
        rw [ha] at hcl
        simp only [] at hcl
        cases hu1 : update_mission_progress uid .capture_zones 1 now
            ((stA.notify uid .zone_captured).logActivity uid .zone_captured
              (some zid) 10 0) with
        | none => rw [hu1] at hcl; exact absurd hcl (by simp)
        | some stB =>
          rw [hu1] at hcl
          simp only [Option.some.injEq, Prod.mk.injEq] at hcl
          obtain ⟨hmonoA, hlvlA, hzA, hmsA⟩ := award_ep_invariants ha
          obtain ⟨hmono1, hlvl1, hz1, hms1⟩ :=
            update_mission_progress_invariants hu1
          rw [← hcl.2]
          refine ⟨?_, ?_, ?_, ?_, ?_⟩
          · refine epMono_trans (epMono_trans ?_ (by simpa using hmonoA))
              (by simpa using hmono1)
            intro i v hv
            exact ⟨v, by simpa using hv, le_refl _⟩
          · intro hlv
            refine hlvl1 ?_
            have := hlvlA (fun i v hv => hlv i v (by simpa using hv))
            intro i v hv
            exact this i v (by simpa using hv)
          · refine preservesEarnEp_trans ?_ (by simpa using hms1 (by simp))
            try simp only [notify_missions, logActivity_missions]
            rw [hmsA]
            try simp only [setZone_missions]
            exact preservesEarnEp_refl _
          · intro zid2 hzid2
            rw [hz1]
            simp only [notify_zones, logActivity_zones]
            rw [hzA]
            simp [hzid2]
          · refine ⟨la0, ?_⟩
            rw [hz1]
            simp only [notify_zones, logActivity_zones]
            rw [hzA]
            simp
    cases hz : st.zones zid with
    | none =>
      rw [hz] at h
      simp only [] at h
      obtain ⟨h1, h2, h3, h4, h5⟩ := hclaim none h
      exact ⟨h1, h2, h3, h4, Or.inl h5⟩
    | some z =>
      rw [hz] at h
      simp only [] at h
      cases hown : z.ownerId with
      | none =>
        rw [hown] at h
        obtain ⟨h1, h2, h3, h4, h5⟩ := hclaim z.lastAttackAt h
        exact ⟨h1, h2, h3, h4, Or.inl h5⟩
      | some owner =>
        rw [hown] at h
        simp only [] at h
        split at h
        next howner =>
          simp only [Option.some.injEq, Prod.mk.injEq] at h
          rw [← h.2]
          refine ⟨epMono_refl st, fun hv => hv, preservesEarnEp_refl _,
            fun zid2 hzid2 => by simp [hzid2], Or.inr ⟨z, rfl, Or.inl
              ⟨by simp [hown], by rw [hown, howner]⟩⟩⟩
        next howner =>
          simp only [Option.some.injEq, Prod.mk.injEq] at h
          rw [← h.2]
          refine ⟨epMono_refl st, fun hv => hv, preservesEarnEp_refl _,
            fun zid2 hzid2 => by simp [hzid2],
            Or.inr ⟨z, rfl, Or.inr ⟨owner, hown, fun he => howner he,
              by simp [hown]⟩⟩⟩

/-! ## Engine operations as state transformers -/

/-- The engine operations named by the specification.  The coordinate-taking
`capture_zone` validates its inputs and then runs the body on the quantized
grid id, so quantifying over zone ids covers every coordinate form of the
call.  A failing call (SQL exception) rolls the transaction back, leaving the
state unchanged. -/
inductive EngineOp where
  | capture (zid : ZoneId) (uid : UserId) (now : Nat)
  | attack (zid : ZoneId) (uid : UserId) (power : Int) (now : Nat)
  | defend (zid : ZoneId) (uid : UserId) (boost : Int) (now : Nat)
  | award (uid : UserId) (amount : Int)
  | missionProgress (uid : UserId) (mtype : MissionType) (inc : Int) (now : Nat)

/-- Run one engine operation; failures leave the state unchanged
(transactional rollback). -/
def applyOp (op : EngineOp) (st : GameState) : GameState :=
  match op with
  | .capture zid uid now =>
    match capture_zone_at zid uid now st with
    | some (_, st1) => st1
    | none => st
  | .attack zid uid power now =>
    match attack_zone zid uid power now st with
    | some (_, st1) => st1
    | none => st
  | .defend zid uid boost now =>
    match defend_zone zid uid boost now st with
    | some (_, st1) => st1
    | none => st
  | .award uid amount =>
    match award_ep uid amount st with
    | some (_, st1) => st1
    | none => st
  | .missionProgress uid mtype inc now =>
    match update_mission_progress uid mtype inc now st with
    | some st1 => st1
    | none => st

/-- Run a sequence of engine operations, left to right. -/
def applyOps : List EngineOp → GameState → GameState
  | [], st => st
  | op :: rest, st => applyOps rest (applyOp op st)

/-- Every single engine operation preserves EP monotonicity, the respect
formula invariant and the defense-score bounds. -/
lemma applyOp_invariants (op : EngineOp) (st : GameState) :
    epMono st (applyOp op st) ∧ (levelInv st → levelInv (applyOp op st)) ∧
    (zoneDefInv st → zoneDefInv (applyOp op st)) := by
  cases op with
  | capture zid uid now =>
    simp only [applyOp]
    cases hc : capture_zone_at zid uid now st with
    | none => exact ⟨epMono_refl st, fun hv => hv, fun hv => hv⟩
    | some p =>
      obtain ⟨r, st1⟩ := p
      obtain ⟨hm, hl, _, hforeign, hzone⟩ := capture_zone_at_effects hc
      refine ⟨hm, hl, ?_⟩
      intro hdef zid2 z2 hz2
      by_cases hzz : zid2 = zid
      · subst hzz
        rcases hzone with ⟨la, hrow⟩ | ⟨z, hzrow, hcase⟩
        · rw [hrow] at hz2
          injection hz2 with hz2
          rw [← hz2]
          refine ⟨by norm_num, by norm_num⟩
        · obtain ⟨hlo, hhi⟩ := hdef _ _ hzrow
          rcases hcase with ⟨hrow, _⟩ | ⟨ow, _, _, hrow⟩
          · rw [hrow] at hz2
            injection hz2 with hz2
            rw [← hz2]
            constructor <;> simp <;> omega
          · rw [hrow] at hz2
            injection hz2 with hz2
            rw [← hz2]
            exact ⟨hlo, hhi⟩
      · rw [hforeign zid2 hzz] at hz2
        exact hdef _ _ hz2
  | attack zid uid power now =>
    simp only [applyOp]
    cases hc : attack_zone zid uid power now st with
    | none => exact ⟨epMono_refl st, fun hv => hv, fun hv => hv⟩
    | some p =>
      obtain ⟨r, st1⟩ := p
      obtain ⟨⟨hp0, hp50⟩, hm, hl, _, hforeign, hzone⟩ := attack_zone_effects hc
      refine ⟨hm, hl, ?_⟩
      intro hdef zid2 z2 hz2
      by_cases hzz : zid2 = zid
      · subst hzz
        rcases hzone with heq | ⟨z, hzrow, _, hcase⟩
        · rw [heq] at hz2
          exact hdef _ _ hz2
        · obtain ⟨hlo, hhi⟩ := hdef _ _ hzrow
          rcases hcase with ⟨hrow, _⟩ | ⟨hrow, _⟩
          · rw [hrow] at hz2
            injection hz2 with hz2
            rw [← hz2]
            refine ⟨by norm_num, by norm_num⟩
          · rw [hrow] at hz2
            injection hz2 with hz2
            rw [← hz2]
            constructor <;> simp <;> omega
      · rw [hforeign zid2 hzz] at hz2
        exact hdef _ _ hz2
  | defend zid uid boost now =>
    simp only [applyOp]
    cases hc : defend_zone zid uid boost now st with
    | none => exact ⟨epMono_refl st, fun hv => hv, fun hv => hv⟩
    | some p =>
      obtain ⟨r, st1⟩ := p
      obtain ⟨⟨hb0, hb30⟩, hm, hl, _, hforeign, hzone⟩ := defend_zone_effects hc
      refine ⟨hm, hl, ?_⟩
      intro hdef zid2 z2 hz2
      by_cases hzz : zid2 = zid
      · subst hzz
        rcases hzone with heq | ⟨z, hzrow, _, hrow⟩
        · rw [heq] at hz2
          exact hdef _ _ hz2
        · obtain ⟨hlo, hhi⟩ := hdef _ _ hzrow
          rw [hrow] at hz2
          injection hz2 with hz2
          rw [← hz2]
          constructor <;> simp <;> omega
      · rw [hforeign zid2 hzz] at hz2
        exact hdef _ _ hz2
  | award uid amount =>
    simp only [applyOp]
    cases hc : award_ep uid amount st with
    | none => exact ⟨epMono_refl st, fun hv => hv, fun hv => hv⟩
    | some p =>
      obtain ⟨r, st1⟩ := p
      obtain ⟨hm, hl, hz, _⟩ := award_ep_invariants hc
      refine ⟨hm, hl, ?_⟩
      intro hdef zid2 z2 hz2
      rw [hz] at hz2
      exact hdef _ _ hz2
  | missionProgress uid mtype inc now =>
    simp only [applyOp]
    cases hc : update_mission_progress uid mtype inc now st with
    | none => exact ⟨epMono_refl st, fun hv => hv, fun hv => hv⟩
    | some st1 =>
      obtain ⟨hm, hl, hz, _⟩ := update_mission_progress_invariants hc
      refine ⟨hm, hl, ?_⟩
      intro hdef zid2 z2 hz2
      rw [hz] at hz2
      exact hdef _ _ hz2

/-- Sequences of engine operations preserve the same invariants. -/
lemma applyOps_invariants (l : List EngineOp) (st : GameState) :
    epMono st (applyOps l st) ∧ (levelInv st → levelInv (applyOps l st)) ∧
    (zoneDefInv st → zoneDefInv (applyOps l st)) := by
  induction l generalizing st with
  | nil => exact ⟨epMono_refl st, fun hv => hv, fun hv => hv⟩
  | cons op rest ih =>
    obtain ⟨hm1, hl1, hd1⟩ := applyOp_invariants op st
    obtain ⟨hm2, hl2, hd2⟩ := ih (applyOp op st)
    exact ⟨epMono_trans hm1 hm2, fun hv => hl2 (hl1 hv), fun hv => hd2 (hd1 hv)⟩

/-! ## Counting helpers for notifications and activity entries -/

/-- Number of notifications of a given type addressed to a user. -/
def countNotif (st : GameState) (uid : UserId) (t : NotificationType) : Nat :=
  (st.notifications.filter
    (fun n => n.userId = uid && n.notificationType = t)).length

/-- Number of notifications addressed to a user, of any type. -/
def countNotifUser (st : GameState) (uid : UserId) : Nat :=
  (st.notifications.filter (fun n => n.userId = uid)).length

/-- Number of activity-log entries of a given type for a user. -/
def countActivity (st : GameState) (uid : UserId) (t : ActivityType) : Nat :=
  (st.activityLog.filter
    (fun e => e.userId = uid && e.activityType = t)).length

/-! ## A concrete state used by the witnesses -/

/-- Two fresh users; user 0 owns zone `z1`; user 1 has the starter mission
set. -/
def stW : GameState :=
  { users := fun i => if i = 0 then some ⟨0, 1⟩
             else if i = 1 then some ⟨0, 1⟩ else none,
    zones := fun zid => if zid = "z1" then some ⟨some 0, 50, .safe, none, none⟩
             else none,
    missions := [⟨1, .capture_zones, 5, 0, 50, .active, some 604800, none⟩,
                 ⟨1, .earn_ep, 100, 0, 25, .active, some 604800, none⟩,
                 ⟨1, .defend_zones, 3, 0, 30, .active, some 604800, none⟩],
    notifications := [], activityLog := [] }

lemma stW_zoneDefInv : zoneDefInv stW := by
  intro zid z hz
  simp only [stW] at hz
  split at hz
  · injection hz with hz
    rw [← hz]
    exact ⟨by norm_num, by norm_num⟩
  · exact absurd hz (by simp)

lemma stW_levelInv : levelInv stW := by
  intro i u hu
  simp only [stW] at hu
  split at hu
  · injection hu with hu
    rw [← hu]
    decide
  · split at hu
    · injection hu with hu
      rw [← hu]
      decide
    · exact absurd hu (by simp)

lemma stW_zoneOwnerInv : zoneOwnerInv stW := by
  intro zid z hz
  simp only [stW] at hz
  split at hz
  · injection hz with hz
    rw [← hz]
    simp
  · exact absurd hz (by simp)

/-! ## Claim C2 -/

/-- C2: for every zone and every engine operation (captureZone, attackZone,
defendZone, updateMissionProgress, awardEP), if the zone's defenseScore is in
[0,100] before the operation then it is in [0,100] after the operation
completes. -/
theorem C2_defense_score_bounds (op : EngineOp) (st : GameState)
    (h : zoneDefInv st) : zoneDefInv (applyOp op st) :=
  (applyOp_invariants op st).2.2 h

theorem C2_defense_score_bounds_witness :
    zoneDefInv stW ∧ zoneDefInv (applyOp (.attack "z1" 1 10 7) stW) :=
  ⟨stW_zoneDefInv, C2_defense_score_bounds (.attack "z1" 1 10 7) stW
    stW_zoneDefInv⟩

/-! ## Claim C3 -/

/-- C3: for every user and every sequence of engine operations, the user's
totalEP never decreases (`epMono`), and the invariant "respectLevel equals
`clamp(1, 100, 1 + floor(sqrt(max(0, totalEP) / 100)))` applied to the
current totalEP" (`levelInv`, stated through the source's
`calculate_respect_level`) is preserved by the whole sequence, hence holds
after each operation. -/
theorem C3_ep_monotone_respect_formula (l : List EngineOp) (st : GameState) :
    epMono st (applyOps l st) ∧
    (levelInv st → levelInv (applyOps l st)) :=
  ⟨(applyOps_invariants l st).1, fun h => (applyOps_invariants l st).2.1 h⟩

theorem C3_ep_monotone_respect_formula_witness :
    levelInv stW ∧
    (epMono stW (applyOps [.attack "z1" 1 10 7, .defend "z1" 0 10 8] stW) ∧
     levelInv (applyOps [.attack "z1" 1 10 7, .defend "z1" 0 10 8] stW)) :=
  ⟨stW_levelInv,
   (C3_ep_monotone_respect_formula [.attack "z1" 1 10 7, .defend "z1" 0 10 8]
     stW).1,
   (C3_ep_monotone_respect_formula [.attack "z1" 1 10 7, .defend "z1" 0 10 8]
     stW).2 stW_levelInv⟩

/-! ## Claim C9 -/

/-- The caller-facing operations of the engine.  `update_mission_progress`
and `award_ep` are internal helpers per the repository's API documentation
("Called internally by other RPCs"); `award_ep` is still included here
because the claim asserts that it never invokes the mission update.  The
caller-facing operations invoke `update_mission_progress` only with the
types `capture_zones`, `win_battles` and `defend_zones`. -/
inductive PlayerOp where
  | capture (zid : ZoneId) (uid : UserId) (now : Nat)
  | attack (zid : ZoneId) (uid : UserId) (power : Int) (now : Nat)
  | defend (zid : ZoneId) (uid : UserId) (boost : Int) (now : Nat)
  | award (uid : UserId) (amount : Int)

/-- Run one caller-facing operation (failures roll back). -/
def applyPlayerOp (op : PlayerOp) (st : GameState) : GameState :=
  match op with
  | .capture zid uid now =>
    match capture_zone_at zid uid now st with
    | some (_, st1) => st1
    | none => st
  | .attack zid uid power now =>
    match attack_zone zid uid power now st with
    | some (_, st1) => st1
    | none => st
  | .defend zid uid boost now =>
    match defend_zone zid uid boost now st with
    | some (_, st1) => st1
    | none => st
  | .award uid amount =>
    match award_ep uid amount st with
    | some (_, st1) => st1
    | none => st

/-- Run a sequence of caller-facing operations. -/
def applyPlayerOps : List PlayerOp → GameState → GameState
  | [], st => st
  | op :: rest, st => applyPlayerOps rest (applyPlayerOp op st)

lemma applyPlayerOp_earnEp (op : PlayerOp) (st : GameState) :
    preservesEarnEp st.missions (applyPlayerOp op st).missions := by
  cases op with
  | capture zid uid now =>
    simp only [applyPlayerOp]
    cases hc : capture_zone_at zid uid now st with
    | none => exact preservesEarnEp_refl _
    | some p =>
      obtain ⟨r, st1⟩ := p
      exact (capture_zone_at_effects hc).2.2.1
  | attack zid uid power now =>
    simp only [applyPlayerOp]
    cases hc : attack_zone zid uid power now st with
    | none => exact preservesEarnEp_refl _
    | some p =>
      obtain ⟨r, st1⟩ := p
      exact (attack_zone_effects hc).2.2.2.1
  | defend zid uid boost now =>
    simp only [applyPlayerOp]
    cases hc : defend_zone zid uid boost now st with
    | none => exact preservesEarnEp_refl _
    | some p =>
      obtain ⟨r, st1⟩ := p
      exact (defend_zone_effects hc).2.2.2.1
  | award uid amount =>
    simp only [applyPlayerOp]
    cases hc : award_ep uid amount st with
    | none => exact preservesEarnEp_refl _
    | some p =>
      obtain ⟨r, st1⟩ := p
      rw [(award_ep_invariants hc).2.2.2]
      exact preservesEarnEp_refl _

lemma applyPlayerOps_earnEp (l : List PlayerOp) (st : GameState) :
    preservesEarnEp st.missions (applyPlayerOps l st).missions := by
  induction l generalizing st with
  | nil => exact preservesEarnEp_refl _
  | cons op rest ih =>
    exact preservesEarnEp_trans (applyPlayerOp_earnEp op st)
      (ih (applyPlayerOp op st))

/-- A `Forall₂` relation transports membership. -/
lemma forall₂_mem {α β : Type} {P : α → β → Prop} {l1 : List α} {l2 : List β}
    (h : List.Forall₂ P l1 l2) {a : α} (ha : a ∈ l1) :
    ∃ b ∈ l2, P a b := by
  induction h with
  | nil => exact absurd ha (by simp)
  | cons hab hrest ih =>
    rcases List.mem_cons.mp ha with rfl | ha2
    · exact ⟨_, by simp, hab⟩
    · obtain ⟨b, hb, hPb⟩ := ih ha2
      exact ⟨b, by simp [hb], hPb⟩

/-- C9: no caller-facing engine operation ever advances an `earn_ep`
mission: all `earn_ep` mission rows are unchanged, pointwise, by any
sequence of operations, and in particular the starter "Earn 100 EP" mission
created at signup still sits at `current = 0, status = active` after any such
sequence. -/
theorem C9_earn_ep_mission_never_advances (l : List PlayerOp) (st : GameState)
    (uid : UserId) (now : Nat) :
    preservesEarnEp st.missions (applyPlayerOps l st).missions ∧
    (⟨uid, .earn_ep, 100, 0, 25, .active, some (now + 604800), none⟩ : Mission)
      ∈ (applyPlayerOps l (create_initial_missions uid now st)).missions := by
  refine ⟨applyPlayerOps_earnEp l st, ?_⟩
  have hmem : (⟨uid, .earn_ep, 100, 0, 25, .active, some (now + 604800), none⟩ :
      Mission) ∈ (create_initial_missions uid now st).missions := by
    simp [create_initial_missions]
  obtain ⟨b, hb, hPb⟩ :=
    forall₂_mem (applyPlayerOps_earnEp l (create_initial_missions uid now st))
      hmem
  rw [hPb rfl] at hb
  exact hb

/-! ## Claim C4 -/

/-- C4: after every `update_mission_progress` call, pointwise: progress stays
at most the target; a mission that is not active (in particular an already
completed one) is left completely unchanged, so a mission can transition to
completed at most once; a mission that ends up completed either already was
completed or was an active matching mission whose fetched progress reached
the target this call; and the subject user's EP grows by exactly the sum of
the rewards of the missions completing in this call — each reward granted
exactly once, at the transition. -/
theorem C4_mission_progress_invariants {uid : UserId} {mtype : MissionType}
    {inc : Int} {now : Nat} {st st1 : GameState} {u : User}
    (h : update_mission_progress uid mtype inc now st = some st1)
    (hu : st.users uid = some u) :
    List.Forall₂ (fun m m1 =>
      (m.currentValue ≤ m.targetValue → m1.currentValue ≤ m1.targetValue) ∧
      (m.status ≠ .active → m1 = m) ∧
      (m1.status = .completed → m.status = .completed ∨
        (m.status = .active ∧ missionMatches uid mtype m = true ∧
          m.currentValue + inc ≥ m.targetValue))) st.missions st1.missions ∧
    ∃ u1, st1.users uid = some u1 ∧
      u1.totalEP = u.totalEP + rewardSum uid mtype inc st.missions := by
  obtain ⟨hmap, _, _, _, _, hep, _⟩ := update_mission_progress_effects h
  constructor
  · rw [hmap]
    refine forall₂_of_map _ ?_
    intro m _
    unfold missionUpdate
    by_cases hmm : missionMatches uid mtype m
    · rw [if_pos hmm]
      have hact : m.status = .active := by
        simp only [missionMatches, Bool.and_eq_true, decide_eq_true_eq] at hmm
        exact hmm.2
      by_cases hc : m.currentValue + inc ≥ m.targetValue
      · rw [if_pos hc]
        refine ⟨fun _ => by simp, fun hna => absurd hact hna, ?_⟩
        intro _
        exact Or.inr ⟨hact, hmm, hc⟩
      · rw [if_neg hc]
        refine ⟨fun _ => by simp, fun hna => absurd hact hna, ?_⟩
        intro hcomp
        simp only [] at hcomp
        rw [hact] at hcomp
        exact absurd hcomp (by simp)
    · rw [if_neg hmm]
      exact ⟨fun hle => hle, fun _ => rfl, fun hcomp => Or.inl hcomp⟩
  · obtain ⟨u1, hu1, hsum, _, _⟩ := hep u hu
    exact ⟨u1, hu1, hsum⟩

/-- Witness state for C4: user 1 with a capture mission one increment from
completion. -/
def stW4 : GameState :=
  { users := fun i => if i = 1 then some ⟨0, 1⟩ else none,
    zones := fun _ => none,
    missions := [⟨1, .capture_zones, 1, 0, 50, .active, none, none⟩],
    notifications := [], activityLog := [] }

/-- The state after the witness call, defined through the operation itself so
that the equation used in the witness is definitional. -/
def stW4r : GameState :=
  (update_mission_progress 1 .capture_zones 1 7 stW4).getD stW4

theorem C4_mission_progress_invariants_witness :
    List.Forall₂ (fun m m1 =>
      (m.currentValue ≤ m.targetValue → m1.currentValue ≤ m1.targetValue) ∧
      (m.status ≠ .active → m1 = m) ∧
      (m1.status = .completed → m.status = .completed ∨
        (m.status = .active ∧ missionMatches 1 .capture_zones m = true ∧
          m.currentValue + 1 ≥ m.targetValue))) stW4.missions stW4r.missions ∧
    ∃ u1, stW4r.users 1 = some u1 ∧
      u1.totalEP = (⟨0, 1⟩ : User).totalEP +
        rewardSum 1 .capture_zones 1 stW4.missions :=
  @C4_mission_progress_invariants 1 MissionType.capture_zones 1 7 stW4 stW4r
    ⟨0, 1⟩ rfl rfl

/-! ## Claim C1 -/

/-- Under a unit increment, a non-completing `missionUpdate` is exactly the
plus-one бump on matching missions. -/
lemma missionUpdate_bump {uid : UserId} {t : MissionType} {now : Nat}
    {m : Mission} (h : completingNow uid t 1 m = false) :
    missionUpdate uid t 1 now m =
      if missionMatches uid t m then
        { m with currentValue := m.currentValue + 1 }
      else m := by
  unfold missionUpdate
  by_cases hmm : missionMatches uid t m
  · rw [if_pos hmm, if_pos hmm]
    simp only [completingNow, hmm, Bool.true_and, decide_eq_false_iff_not] at h
    rw [if_neg h]
    have hmin : min m.targetValue (m.currentValue + 1) = m.currentValue + 1 := by
      omega
    rw [hmin]
  · rw [if_neg hmm, if_neg hmm]

/-- `missionUpdate` preserves the identifying fields of a mission row. -/
lemma missionUpdate_preserves (uid : UserId) (t : MissionType) (inc : Int)
    (now : Nat) (m : Mission) :
    (missionUpdate uid t inc now m).missionType = m.missionType ∧
    (missionUpdate uid t inc now m).userId = m.userId ∧
    (missionUpdate uid t inc now m).targetValue = m.targetValue := by
  unfold missionUpdate
  split
  · split <;> exact ⟨rfl, rfl, rfl⟩
  · exact ⟨rfl, rfl, rfl⟩

/-- C1: attacking an enemy-owned zone with defense `d ∈ [0,100]` and power
`p ∈ [1,50]` computes `max(0, d - p)`.  If that is zero, ownership transfers
to the attacker with defense 50 and status safe, the attacker is awarded
exactly 25 EP, the old owner gets exactly one new `zone_lost` notification,
the attacker exactly one new `zone_captured` notification, and the attacker's
`capture_zones` and `win_battles` mission progress each increase by one
(stated here for states where no such mission completes on this call, so the
increments stay plain `+1`).  Otherwise the defense drops to `d - p`, the
status becomes `under_attack` with `lastAttackAt` set, the attacker is
awarded exactly 2 EP, and the owner receives no notification at all. -/
theorem C1_attack_zone_behavior {zid : ZoneId} {attacker owner : UserId}
    {power : Int} {now : Nat} {st : GameState} {z : Zone} {u : User}
    (hz : st.zones zid = some z) (hown : z.ownerId = some owner)
    (hne : owner ≠ attacker)
    (hd : 0 ≤ z.defenseScore ∧ z.defenseScore ≤ 100)
    (hp : 1 ≤ power ∧ power ≤ 50)
    (hu : st.users attacker = some u)
    (hnc : ∀ m ∈ st.missions, completingNow attacker .capture_zones 1 m = false
      ∧ completingNow attacker .win_battles 1 m = false) :
    (z.defenseScore ≤ power →
      ∃ st1, attack_zone zid attacker power now st = some (.captured 25, st1) ∧
        st1.zones zid = some { z with ownerId := some attacker,
                                       defenseScore := 50, status := .safe,
                                       capturedAt := some now } ∧
        (∃ u1, st1.users attacker = some u1 ∧ u1.totalEP = u.totalEP + 25) ∧
        countNotif st1 owner .zone_lost = countNotif st owner .zone_lost + 1 ∧
        countNotif st1 attacker .zone_captured =
          countNotif st attacker .zone_captured + 1 ∧
        st1.missions = st.missions.map (fun m =>
          if missionMatches attacker .capture_zones m ||
             missionMatches attacker .win_battles m then
            { m with currentValue := m.currentValue + 1 }
          else m)) ∧
    (power < z.defenseScore →
      ∃ st1, attack_zone zid attacker power now st =
          some (.damaged (z.defenseScore - power) 2, st1) ∧
        st1.zones zid = some { z with
                                       defenseScore := z.defenseScore - power,
                                       status := .under_attack,
                                       lastAttackAt := some now } ∧
        (∃ u1, st1.users attacker = some u1 ∧ u1.totalEP = u.totalEP + 2) ∧
        countNotifUser st1 owner = countNotifUser st owner ∧
        st1.missions = st.missions) := by
  have hvalid : ¬(power ≤ 0 ∨ power > 50) := by omega
  have hownne : ¬(z.ownerId = some attacker) := by
    rw [hown]
    intro he
    injection he with he
    exact hne he
  constructor
  · -- capture case
    intro hle
    have hcap : max 0 (z.defenseScore - power) = 0 := by omega
    have hstZu : (st.setZone zid { z with ownerId := some attacker,
                                           defenseScore := 50,
                                           status := .safe,
                                           capturedAt := some now
                                         }).users attacker = some u := by
      simpa using hu
    obtain ⟨rA, stA, ha⟩ := @award_ep_isSome attacker 25 _ u hstZu (by norm_num)
    obtain ⟨uZ, huZ, _, husersA⟩ := award_ep_users ha
    have huZu : uZ = u := by
      simp only [setZone_users] at huZ
      rw [hu] at huZ
      injection huZ with huZ
      exact huZ.symm
    subst huZu
    have hzA := award_ep_zones ha
    have hmsA := award_ep_missions ha
    obtain ⟨eN, hN, hNmem⟩ := award_ep_notifications ha
    set st3 := (((stA.notify owner .zone_lost).notify attacker
      .zone_captured).logActivity attacker .zone_captured (some zid) 25
        0).logActivity owner .zone_lost (some zid) 0 0 with hst3
    have hms3 : st3.missions = st.missions := by
      simp [hst3, hmsA]
    have hnc3 : ∀ m ∈ st3.missions,
        completingNow attacker .capture_zones 1 m = false := by
      rw [hms3]
      exact fun m hm => (hnc m hm).1
    have hump1 := @update_mission_progress_noComplete attacker .capture_zones 1 now _ hnc3
    have hnc4 : ∀ m ∈ ({ st3 with
        missions := st3.missions.map
          (missionUpdate attacker .capture_zones 1 now) } : GameState).missions,
        completingNow attacker .win_battles 1 m = false := by
      simp only [hms3, List.mem_map]
      rintro m2 ⟨m, hm, rfl⟩
      by_cases hmm : missionMatches attacker .capture_zones m
      · have htype : m.missionType = .capture_zones := by
          simp only [missionMatches, Bool.and_eq_true, decide_eq_true_eq] at hmm
          exact hmm.1.2
        simp only [completingNow, missionMatches, Bool.and_eq_true,
          decide_eq_true_eq]
        have := (missionUpdate_preserves attacker .capture_zones 1 now m).1
        rw [this, htype]
        simp
      · rw [missionUpdate_bump ((hnc m hm).1), if_neg hmm]
        exact (hnc m hm).2
    have hump2 := @update_mission_progress_noComplete attacker .win_battles 1 now _ hnc4
    refine ⟨{ ({ st3 with
          missions := st3.missions.map
            (missionUpdate attacker .capture_zones 1 now) } : GameState) with
        missions := ({ st3 with
          missions := st3.missions.map
            (missionUpdate attacker .capture_zones 1 now) } :
              GameState).missions.map
          (missionUpdate attacker .win_battles 1 now) },
      ?_, ?_, ?_, ?_, ?_, ?_⟩
    · show attack_zone zid attacker power now st = _
      unfold attack_zone
      rw [if_neg hvalid, hz]
      simp only []
      rw [if_neg hownne, if_pos hcap, hown, ha]
      simp only []
      rw [← hst3, hump1]
      simp only []
      rw [hump2]
    · show st3.zones zid = _
      simp only [hst3, notify_zones, logActivity_zones]
      rw [hzA]
      simp
    · refine ⟨⟨uZ.totalEP + 25, calculate_respect_level (uZ.totalEP + 25)⟩,
        ?_, rfl⟩
      show st3.users attacker = _
      simp only [hst3, notify_users, logActivity_users]
      rw [husersA]
      simp
    · have hNfilter : eN.filter
          (fun n => n.userId = owner && n.notificationType =
            NotificationType.zone_lost) = [] := by
        refine List.filter_eq_nil.mpr ?_
        intro n hn
        obtain ⟨_, htype⟩ := hNmem n hn
        simp [htype]
      show countNotif st3 owner NotificationType.zone_lost = _
      simp only [countNotif, hst3, notify_notifications,
        logActivity_notifications]
      rw [hN]
      simp only [setZone_notifications]
      rw [List.filter_append, List.filter_append, List.filter_append,
        hNfilter]
      simp [hne, Ne.symm hne]
    · have hNfilter : eN.filter
          (fun n => n.userId = attacker && n.notificationType =
            NotificationType.zone_captured) = [] := by
        refine List.filter_eq_nil.mpr ?_
        intro n hn
        obtain ⟨_, htype⟩ := hNmem n hn
        simp [htype]
      show countNotif st3 attacker NotificationType.zone_captured = _
      simp only [countNotif, hst3, notify_notifications,
        logActivity_notifications]
      rw [hN]
      simp only [setZone_notifications]
      rw [List.filter_append, List.filter_append, List.filter_append,
        hNfilter]
      simp [hne, Ne.symm hne]
    · show (st3.missions.map
          (missionUpdate attacker .capture_zones 1 now)).map
            (missionUpdate attacker .win_battles 1 now) = _
      rw [hms3, List.map_map]
      refine List.map_congr_left ?_
      intro m hm
      simp only [Function.comp_apply]
      rw [missionUpdate_bump ((hnc m hm).1)]
      by_cases hmm : missionMatches attacker .capture_zones m
      · have htype : m.missionType = .capture_zones := by
          simp only [missionMatches, Bool.and_eq_true, decide_eq_true_eq] at hmm
          exact hmm.1.2
        rw [if_pos hmm]
        have hwb : ¬missionMatches attacker .win_battles
            { m with currentValue := m.currentValue + 1 } = true := by
          simp only [missionMatches, Bool.and_eq_true, decide_eq_true_eq]
          rintro ⟨⟨_, hty⟩, _⟩
          have hty2 : m.missionType = MissionType.win_battles := hty
          rw [htype] at hty2
          exact absurd hty2 (by simp)
        rw [missionUpdate_bump, if_neg hwb]
        · rw [if_pos (by simp [hmm])]
        · simp only [completingNow]
          rw [Bool.eq_false_iff]
          intro hcontra
          exact hwb (Bool.and_eq_true _ _ ▸ hcontra).1
      · rw [if_neg hmm]
        rw [missionUpdate_bump ((hnc m hm).2)]
        by_cases hwb : missionMatches attacker .win_battles m
        · rw [if_pos hwb, if_pos (by simp [hwb])]
        · rw [if_neg hwb, if_neg (by simp [hmm, hwb])]
  · -- partial damage case
    intro hlt
    have hndmg : ¬(max 0 (z.defenseScore - power) = 0) := by omega
    have hstZu : (st.setZone zid { z with
                                           defenseScore :=
                                             max 0 (z.defenseScore - power),
                                           status := .under_attack,
                                           lastAttackAt := some now
                                         }).users attacker = some u := by
      simpa using hu
    obtain ⟨rA, stA, ha⟩ := @award_ep_isSome attacker 2 _ u hstZu (by norm_num)
    obtain ⟨uZ, huZ, _, husersA⟩ := award_ep_users ha
    have huZu : uZ = u := by
      simp only [setZone_users] at huZ
      rw [hu] at huZ
      injection huZ with huZ
      exact huZ.symm
    subst huZu
    have hzA := award_ep_zones ha
    have hmsA := award_ep_missions ha
    obtain ⟨eN, hN, hNmem⟩ := award_ep_notifications ha
    have hmax : max 0 (z.defenseScore - power) = z.defenseScore - power := by
      omega
    refine ⟨stA.logActivity attacker .zone_attacked (some zid) 2 0,
      ?_, ?_, ?_, ?_, ?_⟩
    · show attack_zone zid attacker power now st = _
      unfold attack_zone
      rw [if_neg hvalid, hz]
      simp only []
      rw [if_neg hownne, if_neg hndmg, ha]
      simp only []
      rw [hmax]
    · simp only [logActivity_zones]
      rw [hzA]
      simp [hmax]
    · refine ⟨⟨uZ.totalEP + 2, calculate_respect_level (uZ.totalEP + 2)⟩,
        ?_, rfl⟩
      simp only [logActivity_users]
      rw [husersA]
      simp
    · have hNfilter : eN.filter (fun n => n.userId = owner) = [] := by
        refine List.filter_eq_nil.mpr ?_
        intro n hn
        obtain ⟨huser, _⟩ := hNmem n hn
        simp only [huser, decide_eq_true_eq]
        exact Ne.symm (Ne.symm (fun he => hne he.symm))
      simp only [countNotifUser, logActivity_notifications]
      rw [hN]
      simp only [setZone_notifications]
      rw [List.filter_append, hNfilter]
      simp
    · simp only [logActivity_missions]
      rw [hmsA]
      simp

theorem C1_attack_zone_behavior_witness :
    ∃ st1, attack_zone "z1" 1 50 7 stW = some (.captured 25, st1) ∧
      st1.zones "z1" = some ⟨some 1, 50, .safe, some 7, none⟩ ∧
      (∃ u1, st1.users 1 = some u1 ∧
        u1.totalEP = (⟨0, 1⟩ : User).totalEP + 25) ∧
      countNotif st1 0 .zone_lost = countNotif stW 0 .zone_lost + 1 ∧
      countNotif st1 1 .zone_captured = countNotif stW 1 .zone_captured + 1 ∧
      st1.missions = stW.missions.map (fun m =>
        if missionMatches 1 .capture_zones m ||
           missionMatches 1 .win_battles m then
          { m with currentValue := m.currentValue + 1 }
        else m) :=
  (@C1_attack_zone_behavior "z1" 1 0 50 7 stW ⟨some 0, 50, .safe, none, none⟩
    ⟨0, 1⟩ rfl rfl (by decide) (by decide) (by decide) rfl (by decide)).1
    (by decide)

/-! ## Claim C7 -/

/-- State with an ownerless zone row (reachable: `owner_id` is
`ON DELETE SET NULL`, so deleting a zone owner leaves such a row). -/
def stN7 : GameState :=
  { users := fun i => if i = 7 then some ⟨0, 1⟩ else none,
    zones := fun zid => if zid = "z" then some ⟨none, 50, .safe, none, none⟩
             else none,
    missions := [], notifications := [], activityLog := [] }

/-- Counterexample to C7 as stated: user 7 is not the current owner of zone
"z" (nobody is — the owner column is NULL), yet `defend_zone` does not fail
with NotOwner and mutates the zone: the SQL test `v_owner_id != defender_id`
is NULL (not true) for a NULL owner, so the guard does not fire and the
defense is boosted to 60 with 5 EP awarded. -/
theorem C7_counterexample :
    stN7.zones "z" = some ⟨none, 50, .safe, none, none⟩ ∧
    (defend_zone "z" 7 10 0 stN7).map
      (fun p => (p.1, p.2.zones "z", (p.2.users 7).map User.totalEP)) =
      some (.defended 60 5, some ⟨none, 60, .safe, none, none⟩, some 5) := by
  constructor
  · rfl
  · rfl

/-- C7 (amended): for every `defend_zone` call with an in-range boost where
the zone is absent, the call fails NotFound and returns the state unchanged;
where the zone is owned by SOME user different from the defender, the call
fails NotOwner and returns the state unchanged.  (A zone whose owner column
is NULL escapes the NotOwner guard because the SQL inequality with NULL is
not true, so the original claim's "not the current owner" must exclude the
ownerless case.) -/
theorem C7_defend_not_owner_no_change {zid : ZoneId} {defender : UserId}
    {boost : Int} {now : Nat} {st : GameState}
    (hb : 1 ≤ boost ∧ boost ≤ 30) :
    (st.zones zid = none →
      defend_zone zid defender boost now st = some (.notFound, st)) ∧
    (∀ z o, st.zones zid = some z → z.ownerId = some o → o ≠ defender →
      defend_zone zid defender boost now st =
        some (.notOwner z.defenseScore, st)) := by
  have hvalid : ¬(boost ≤ 0 ∨ boost > 30) := by omega
  constructor
  · intro hz
    unfold defend_zone
    rw [if_neg hvalid, hz]
  · intro z o hz ho hne
    unfold defend_zone
    rw [if_neg hvalid, hz]
    simp only []
    rw [if_pos]
    simp only [sqlOwnerDiffers, ho, bne_iff_ne]
    exact hne

theorem C7_defend_not_owner_no_change_witness :
    (1 ≤ (10 : Int) ∧ (10 : Int) ≤ 30) ∧
    defend_zone "z9" 1 10 0 stW = some (.notFound, stW) ∧
    defend_zone "z1" 1 10 0 stW = some (.notOwner 50, stW) :=
  ⟨by decide,
   (C7_defend_not_owner_no_change (by decide)).1 rfl,
   (C7_defend_not_owner_no_change (by decide)).2
     ⟨some 0, 50, .safe, none, none⟩ 0 rfl rfl (by decide)⟩

/-! ## Claim C8 -/

/-- State satisfying the ownerId-null ⇔ neutral equivalence, with a neutral
zone row and a user. -/
def stN8 : GameState :=
  { users := fun i => if i = 1 then some ⟨0, 1⟩ else none,
    zones := fun zid => if zid = "zn" then
               some ⟨none, 50, .neutral, none, none⟩
             else none,
    missions := [], notifications := [], activityLog := [] }

lemma stN8_zoneOwnerInv : zoneOwnerInv stN8 := by
  intro zid z hz
  simp only [stN8] at hz
  split at hz
  · injection hz with hz
    rw [← hz]
    simp
  · exact absurd hz (by simp)

/-- The state after attacking the neutral zone of `stN8`. -/
def stN8r : GameState :=
  ((attack_zone "zn" 1 10 0 stN8).map Prod.snd).getD stN8

/-- Counterexample to C8 as stated: starting from a state where every zone
satisfies ownerId = null ⇔ status = neutral, a partial-damage attack on the
ownerless zone succeeds (the self-attack guard `v_owner_id = attacker_id` is
NULL, not true) and leaves the zone with a NULL owner and status
`under_attack`, breaking the equivalence. -/
theorem C8_counterexample :
    zoneOwnerInv stN8 ∧
    (attack_zone "zn" 1 10 0 stN8).map (fun p => (p.1, p.2.zones "zn")) =
      some (.damaged 40 2, some ⟨none, 40, .under_attack, none, some 0⟩) ∧
    ¬ zoneOwnerInv stN8r := by
  refine ⟨stN8_zoneOwnerInv, by rfl, ?_⟩
  intro hinv
  have := hinv "zn" ⟨none, 40, .under_attack, none, some 0⟩ (by rfl)
  simp at this

/-- C8 (amended): ownerId = null ⇔ status = neutral is preserved by
`capture_zone` unconditionally, and by `attack_zone` and `defend_zone`
whenever the targeted zone's owner is non-null; on an ownerless zone the
partial-damage attack produces ownerId = null with status under_attack (see
the counterexample). -/
theorem C8_owner_null_iff_neutral :
    (∀ zid uid now st r st1, capture_zone_at zid uid now st = some (r, st1) →
      zoneOwnerInv st → zoneOwnerInv st1) ∧
    (∀ zid uid power now st r st1,
      attack_zone zid uid power now st = some (r, st1) → zoneOwnerInv st →
      (∀ z, st.zones zid = some z → z.ownerId ≠ none) → zoneOwnerInv st1) ∧
    (∀ zid uid boost now st r st1,
      defend_zone zid uid boost now st = some (r, st1) → zoneOwnerInv st →
      (∀ z, st.zones zid = some z → z.ownerId ≠ none) → zoneOwnerInv st1) := by
  refine ⟨?_, ?_, ?_⟩
  · intro zid uid now st r st1 h hinv
    obtain ⟨_, _, _, hforeign, hzone⟩ := capture_zone_at_effects h
    intro zid2 z2 hz2
    by_cases hzz : zid2 = zid
    · subst hzz
      rcases hzone with ⟨la, hrow⟩ | ⟨z, hzrow, hcase⟩
      · rw [hrow] at hz2
        injection hz2 with hz2
        rw [← hz2]
        simp
      · rcases hcase with ⟨hrow, hownz⟩ | ⟨ow, hownz, _, hrow⟩
        · rw [hrow] at hz2
          injection hz2 with hz2
          rw [← hz2]
          have := hinv _ _ hzrow
          simpa using this
        · rw [hrow] at hz2
          injection hz2 with hz2
          rw [← hz2]
          simp [hownz]
    · rw [hforeign zid2 hzz] at hz2
      exact hinv _ _ hz2
  · intro zid uid power now st r st1 h hinv hnn
    obtain ⟨_, _, _, _, hforeign, hzone⟩ := attack_zone_effects h
    intro zid2 z2 hz2
    by_cases hzz : zid2 = zid
    · subst hzz
      rcases hzone with heq | ⟨z, hzrow, _, hcase⟩
      · rw [heq] at hz2
        exact hinv _ _ hz2
      · rcases hcase with ⟨hrow, _⟩ | ⟨hrow, _⟩
        · rw [hrow] at hz2
          injection hz2 with hz2
          rw [← hz2]
          simp
        · rw [hrow] at hz2
          injection hz2 with hz2
          rw [← hz2]
          have hno := hnn z hzrow
          simp only []
          constructor
          · intro hcontra
            exact absurd hcontra hno
          · intro hcontra
            exact absurd hcontra (by simp)
    · rw [hforeign zid2 hzz] at hz2
      exact hinv _ _ hz2
  · intro zid uid boost now st r st1 h hinv hnn
    obtain ⟨_, _, _, _, hforeign, hzone⟩ := defend_zone_effects h
    intro zid2 z2 hz2
    by_cases hzz : zid2 = zid
    · subst hzz
      rcases hzone with heq | ⟨z, hzrow, _, hrow⟩
      · rw [heq] at hz2
        exact hinv _ _ hz2
      · rw [hrow] at hz2
        injection hz2 with hz2
        rw [← hz2]
        have hno := hnn z hzrow
        have hznotneutral : z.status ≠ .neutral := by
          intro hcontra
          exact hno ((hinv _ _ hzrow).mpr hcontra)
        simp only []
        constructor
        · intro hcontra
          exact absurd hcontra hno
        · intro hcontra
          split at hcontra
          · exact absurd hcontra (by simp)
          · exact absurd hcontra hznotneutral
    · rw [hforeign zid2 hzz] at hz2
      exact hinv _ _ hz2

/-- The state after the witness capture call. -/
def stW8r : GameState :=
  ((capture_zone_at "z9" 1 7 stW).map Prod.snd).getD stW

theorem C8_owner_null_iff_neutral_witness :
    zoneOwnerInv stW ∧ zoneOwnerInv stW8r :=
  ⟨stW_zoneOwnerInv,
   C8_owner_null_iff_neutral.1 "z9" 1 7 stW (.captured 10) stW8r rfl
     stW_zoneOwnerInv⟩

/-! ## Claim C6 -/

/-- A single fresh user and an empty map. -/
def stW6 : GameState :=
  { users := fun i => if i = 1 then some ⟨0, 1⟩ else none,
    zones := fun _ => none,
    missions := [], notifications := [], activityLog := [] }

/-- Counterexample to C6 as stated: capturing an empty cell creates TWO
activity-log entries, not exactly one — `award_ep` itself logs an
`ep_earned` entry before `capture_zone` logs the `zone_captured` entry. -/
theorem C6_counterexample :
    stW6.activityLog.length = 0 ∧
    (capture_zone_at "c" 1 7 stW6).map
      (fun p => (p.1, p.2.activityLog.length)) = some (.captured 10, 2) :=
  ⟨rfl, by rfl⟩

/-- C6 (amended): capturing a cell with no zone row (or an ownerless row)
creates/claims the zone with defense 50, status safe and capturedAt set,
awards the caller exactly 10 EP, creates exactly one new `zone_captured`
notification for the caller and exactly one new `zone_captured` activity
entry (the EP award additionally logs an `ep_earned` entry and may emit a
`level_up` notification), and bumps the caller's active `capture_zones`
missions by one (stated for states where none of them completes on this
call).  Stated over the post-quantization body `capture_zone_at`; the
coordinate form runs this body on the quantized grid id. -/
theorem C6_capture_neutral_zone {zid : ZoneId} {uid : UserId} {now : Nat}
    {st : GameState} {u : User}
    (hz : st.zones zid = none ∨ ∃ z, st.zones zid = some z ∧ z.ownerId = none)
    (hu : st.users uid = some u)
    (hnc : ∀ m ∈ st.missions, completingNow uid .capture_zones 1 m = false) :
    ∃ st1, capture_zone_at zid uid now st = some (.captured 10, st1) ∧
      (∃ la, st1.zones zid = some ⟨some uid, 50, .safe, some now, la⟩) ∧
      (∃ u1, st1.users uid = some u1 ∧ u1.totalEP = u.totalEP + 10) ∧
      countNotif st1 uid .zone_captured =
        countNotif st uid .zone_captured + 1 ∧
      countActivity st1 uid .zone_captured =
        countActivity st uid .zone_captured + 1 ∧
      st1.missions = st.missions.map (fun m =>
        if missionMatches uid .capture_zones m then
          { m with currentValue := m.currentValue + 1 }
        else m) := by
  have core : ∀ (la0 : Option Nat), ∃ st1,
      (match award_ep uid 10 (st.setZone zid
          { ownerId := some uid, defenseScore := 50, status := .safe,
            capturedAt := some now, lastAttackAt := la0 }) with
        | none => none
        | some (_, st2) =>
          match update_mission_progress uid .capture_zones 1 now
              ((st2.notify uid .zone_captured).logActivity uid .zone_captured
                (some zid) 10 0) with
          | none => none
          | some st4 => some (CaptureResult.captured 10, st4)) =
        some (CaptureResult.captured 10, st1) ∧
      (∃ la, st1.zones zid = some ⟨some uid, 50, .safe, some now, la⟩) ∧
      (∃ u1, st1.users uid = some u1 ∧ u1.totalEP = u.totalEP + 10) ∧
      countNotif st1 uid .zone_captured =
        countNotif st uid .zone_captured + 1 ∧
      countActivity st1 uid .zone_captured =
        countActivity st uid .zone_captured + 1 ∧
      st1.missions = st.missions.map (fun m =>
        if missionMatches uid .capture_zones m then
          { m with currentValue := m.currentValue + 1 }
        else m) := by
    intro la0
    have hstZu : (st.setZone zid { ownerId := some uid, defenseScore := 50,
                                   status := .safe, capturedAt := some now,
                                   lastAttackAt := la0 }).users uid = some u := by
      simpa using hu
    obtain ⟨rA, stA, ha⟩ := @award_ep_isSome uid 10 _ u hstZu (by norm_num)
    obtain ⟨uZ, huZ, _, husersA⟩ := award_ep_users ha
    have huZu : uZ = u := by
      simp only [setZone_users] at huZ
      rw [hu] at huZ
      injection huZ with huZ
      exact huZ.symm
    subst huZu
    have hzA := award_ep_zones ha
    have hmsA := award_ep_missions ha
    obtain ⟨eN, hN, hNmem⟩ := award_ep_notifications ha
    obtain ⟨eA, hA, hAmem⟩ := award_ep_activityLog ha
    set st3 := (stA.notify uid .zone_captured).logActivity uid .zone_captured
      (some zid) 10 0 with hst3
    have hms3 : st3.missions = st.missions := by
      simp [hst3, hmsA]
    have hnc3 : ∀ m ∈ st3.missions,
        completingNow uid .capture_zones 1 m = false := by
      rw [hms3]
      exact hnc
    have hump := @update_mission_progress_noComplete uid .capture_zones 1 now
      _ hnc3
    refine ⟨{ st3 with missions := st3.missions.map
                         (missionUpdate uid .capture_zones 1 now) },
      ?_, ?_, ?_, ?_, ?_, ?_⟩
    · rw [ha]
      simp only []
      rw [← hst3, hump]
    · refine ⟨la0, ?_⟩
      show st3.zones zid = _
      simp only [hst3, notify_zones, logActivity_zones]
      rw [hzA]
      simp
    · refine ⟨⟨uZ.totalEP + 10, calculate_respect_level (uZ.totalEP + 10)⟩,
        ?_, rfl⟩
      show st3.users uid = _
      simp only [hst3, notify_users, logActivity_users]
      rw [husersA]
      simp
    · have hNfilter : eN.filter
          (fun n => n.userId = uid && n.notificationType =
            NotificationType.zone_captured) = [] := by
        refine List.filter_eq_nil_iff.mpr ?_
        intro n hn
        obtain ⟨_, htype⟩ := hNmem n hn
        simp [htype]
      show countNotif st3 uid NotificationType.zone_captured = _
      simp only [countNotif, hst3, notify_notifications,
        logActivity_notifications]
      rw [hN]
      simp only [setZone_notifications]
      rw [List.filter_append, List.filter_append, hNfilter]
      simp
    · have hAfilter : eA.filter
          (fun e => e.userId = uid && e.activityType =
            ActivityType.zone_captured) = [] := by
        refine List.filter_eq_nil_iff.mpr ?_
        intro e he
        obtain ⟨_, htype⟩ := hAmem e he
        rcases htype with htype | htype <;> simp [htype]
      show countActivity st3 uid ActivityType.zone_captured = _
      simp only [countActivity, hst3, notify_activityLog,
        logActivity_activityLog]
      rw [hA]
      simp only [setZone_activityLog]
      rw [List.filter_append, List.filter_append, hAfilter]
      simp
    · show st3.missions.map (missionUpdate uid .capture_zones 1 now) = _
      rw [hms3]
      refine List.map_congr_left ?_
      intro m hm
      rw [missionUpdate_bump (hnc m hm)]
  rcases hz with hz | ⟨z, hz, hzown⟩
  · obtain ⟨st1, heq, hconc⟩ := core none
    refine ⟨st1, ?_, hconc⟩
    show capture_zone_at zid uid now st = _
    unfold capture_zone_at
    rw [hu]
    simp only []
    rw [hz]
    exact heq
  · obtain ⟨st1, heq, hconc⟩ := core z.lastAttackAt
    refine ⟨st1, ?_, hconc⟩
    show capture_zone_at zid uid now st = _
    unfold capture_zone_at
    rw [hu]
    simp only []
    rw [hz]
    simp only []
    rw [hzown]
    exact heq

theorem C6_capture_neutral_zone_witness :
    ∃ st1, capture_zone_at "c" 1 7 stW6 = some (.captured 10, st1) ∧
      (∃ la, st1.zones "c" = some ⟨some 1, 50, .safe, some 7, la⟩) ∧
      (∃ u1, st1.users 1 = some u1 ∧
        u1.totalEP = (⟨0, 1⟩ : User).totalEP + 10) ∧
      countNotif st1 1 .zone_captured = countNotif stW6 1 .zone_captured + 1 ∧
      countActivity st1 1 .zone_captured =
        countActivity stW6 1 .zone_captured + 1 ∧
      st1.missions = stW6.missions.map (fun m =>
        if missionMatches 1 .capture_zones m then
          { m with currentValue := m.currentValue + 1 }
        else m) :=
  @C6_capture_neutral_zone "c" 1 7 stW6 ⟨0, 1⟩ (Or.inl rfl) rfl (by decide)

/-! ## Grid quantizer (`generate_grid_id`, `generate_zone_geom`)

The SQL functions compute over double precision; they are modelled here over
the real numbers.  `RADIANS(x) = x * π / 180`. -/

/-- `grid_size_lat := 0.00045` degrees (≈ 50 m). -/
noncomputable def gridSizeLat : ℝ := 0.00045

/-- `grid_size_lon := grid_size_lat / GREATEST(COS(RADIANS(lat)), 0.01)`. -/
noncomputable def gridSizeLon (lat : ℝ) : ℝ :=
  gridSizeLat / max (Real.cos (lat * (Real.pi / 180))) 0.01

/-- The pair of integers whose decimal forms make up the grid id. -/
noncomputable def gridIndex (lat lon : ℝ) : ℤ × ℤ :=
  (⌊lat / gridSizeLat⌋, ⌊lon / gridSizeLon lat⌋)

/-- SQL `generate_grid_id`: validates the ranges (exception rendered as
`none`) and returns `FLOOR(lat/grid_size_lat) || '_' ||
FLOOR(lon/grid_size_lon)`. -/
noncomputable def generate_grid_id (lat lon : ℝ) : Option String :=
  if lat < -90 ∨ lat > 90 ∨ lon < -180 ∨ lon > 180 then none
  else some (toString (gridIndex lat lon).1 ++ "_" ++
    toString (gridIndex lat lon).2)

/-- The axis-aligned envelope built by `ST_MakeEnvelope(xmin, ymin, xmax,
ymax)`. -/
structure Rect where
  minLon : ℝ
  minLat : ℝ
  maxLon : ℝ
  maxLat : ℝ

/-- A point of the snapped cell (half-open on the far edges, so that the
cells of one latitude band tile the plane without overlap). -/
def Rect.contains (r : Rect) (lat lon : ℝ) : Prop :=
  r.minLat ≤ lat ∧ lat < r.maxLat ∧ r.minLon ≤ lon ∧ lon < r.maxLon

/-- SQL `generate_zone_geom`: snap to the grid and build the envelope. -/
noncomputable def generate_zone_geom (lat lon : ℝ) : Option Rect :=
  if lat < -90 ∨ lat > 90 ∨ lon < -180 ∨ lon > 180 then none
  else some ⟨⌊lon / gridSizeLon lat⌋ * gridSizeLon lat,
             ⌊lat / gridSizeLat⌋ * gridSizeLat,
             ⌊lon / gridSizeLon lat⌋ * gridSizeLon lat + gridSizeLon lat,
             ⌊lat / gridSizeLat⌋ * gridSizeLat + gridSizeLat⟩

lemma gridSizeLon_pos (lat : ℝ) : 0 < gridSizeLon lat := by
  unfold gridSizeLon gridSizeLat
  positivity

/-! Concrete evaluations at latitude 60 (where `RADIANS(60) = π/3`,
`cos = 1/2`) and at latitude 60.00029 (same latitude band, smaller
cosine). -/

lemma cos_radians_60 : Real.cos ((60 : ℝ) * (Real.pi / 180)) = 1 / 2 := by
  rw [show (60 : ℝ) * (Real.pi / 180) = Real.pi / 3 by ring,
    Real.cos_pi_div_three]

lemma gridSizeLon_60 : gridSizeLon 60 = 0.0009 := by
  unfold gridSizeLon gridSizeLat
  rw [cos_radians_60, max_eq_left (by norm_num)]
  norm_num

lemma latIndex_60 : ⌊(60 : ℝ) / gridSizeLat⌋ = 133333 := by
  unfold gridSizeLat
  rw [Int.floor_eq_iff]
  constructor <;> norm_num

lemma latIndex_60p : ⌊(60.00029 : ℝ) / gridSizeLat⌋ = 133333 := by
  unfold gridSizeLat
  rw [Int.floor_eq_iff]
  constructor <;> norm_num

lemma lonIndex_60 : ⌊(135 : ℝ) / gridSizeLon 60⌋ = 150000 := by
  rw [gridSizeLon_60]
  rw [Int.floor_eq_iff]
  constructor <;> norm_num

/-- Two-sided bound on the cosine at the second latitude. -/
lemma cos_radians_60p :
    Real.cos ((60.00029 : ℝ) * (Real.pi / 180)) ≤ 0.5 - 4.3833e-6 ∧
    (0.5 : ℝ) - 4.3835e-6 ≤ Real.cos ((60.00029 : ℝ) * (Real.pi / 180)) := by
  have hθ : (60.00029 : ℝ) * (Real.pi / 180) =
      Real.pi / 3 + 29 * Real.pi / 18000000 := by ring
  set h : ℝ := 29 * Real.pi / 18000000 with hh
  have h1 : (5.0614537e-6 : ℝ) < h := by
    have := Real.pi_gt_d6
    rw [hh]; linarith
  have h2 : h < (5.0614554e-6 : ℝ) := by
    have := Real.pi_lt_d6
    rw [hh]; linarith
  have hpos : 0 < h := by linarith
  have hsq : h ^ 2 ≤ 2.6e-11 := by nlinarith
  have hsinlb : (5.0614536e-6 : ℝ) < Real.sin h := by
    have hs := Real.sin_gt_sub_cube hpos (by linarith : h ≤ 1)
    have hcube : h ^ 3 ≤ 1.4e-16 := by nlinarith
    linarith
  have hsinub : Real.sin h < (5.0614554e-6 : ℝ) :=
    lt_trans (Real.sin_lt hpos) h2
  have hsinpos : 0 < Real.sin h := by linarith
  have hcoslb : (1 : ℝ) - 1.3e-11 ≤ Real.cos h := by
    have hco := @Real.one_sub_sq_div_two_le_cos h
    linarith
  have hcosub : Real.cos h ≤ 1 := Real.cos_le_one h
  have h3lb : (1.7320508 : ℝ) < Real.sqrt 3 := by
    nlinarith [Real.sq_sqrt (show (0:ℝ) ≤ 3 by norm_num),
      Real.sqrt_nonneg (3:ℝ)]
  have h3ub : Real.sqrt 3 < (1.7320509 : ℝ) := by
    nlinarith [Real.sq_sqrt (show (0:ℝ) ≤ 3 by norm_num),
      Real.sqrt_nonneg (3:ℝ)]
  have hexp : Real.cos ((60.00029 : ℝ) * (Real.pi / 180)) =
      1 / 2 * Real.cos h - Real.sqrt 3 / 2 * Real.sin h := by
    rw [hθ, Real.cos_add, Real.cos_pi_div_three, Real.sin_pi_div_three]
  constructor
  · rw [hexp]
    nlinarith [mul_lt_mul_of_pos_right h3lb hsinpos]
  · rw [hexp]
    nlinarith [mul_pos (show (0:ℝ) < Real.sqrt 3 by linarith) hsinpos,
      mul_lt_mul_of_pos_left hsinub (show (0:ℝ) < Real.sqrt 3 by linarith)]

lemma lonIndex_60p : ⌊(135 : ℝ) / gridSizeLon 60.00029⌋ = 149998 := by
  obtain ⟨hub, hlb⟩ := cos_radians_60p
  have hclamp : max (Real.cos ((60.00029 : ℝ) * (Real.pi / 180))) 0.01 =
      Real.cos ((60.00029 : ℝ) * (Real.pi / 180)) :=
    max_eq_left (by linarith)
  have hpos : (0 : ℝ) < Real.cos ((60.00029 : ℝ) * (Real.pi / 180)) := by
    linarith
  unfold gridSizeLon gridSizeLat
  rw [hclamp, div_div_eq_mul_div]
  rw [Int.floor_eq_iff]
  constructor
  · push_cast
    rw [le_div_iff₀ (by norm_num)]
    nlinarith
  · push_cast
    rw [div_lt_iff₀ (by norm_num)]
    nlinarith

/-- The snapped cell of (60, 135). -/
lemma geom_60_135 :
    generate_zone_geom 60 135 = some ⟨135, 59.99985, 135.0009, 60.0003⟩ := by
  unfold generate_zone_geom
  rw [if_neg (by norm_num)]
  rw [lonIndex_60, gridSizeLon_60, latIndex_60]
  unfold gridSizeLat
  norm_num

lemma id_60_135 : generate_grid_id 60 135 =
    some (toString (133333 : ℤ) ++ "_" ++ toString (150000 : ℤ)) := by
  unfold generate_grid_id gridIndex
  rw [if_neg (by norm_num)]
  rw [latIndex_60, lonIndex_60]

lemma id_60p_135 : generate_grid_id 60.00029 135 =
    some (toString (133333 : ℤ) ++ "_" ++ toString (149998 : ℤ)) := by
  unfold generate_grid_id gridIndex
  rw [if_neg (by norm_num)]
  rw [latIndex_60p, lonIndex_60p]

/-- Counterexample to C5 as stated: (60.00029, 135) lies inside the snapped
cell of (60, 135) — returned by `generate_zone_geom 60 135` — but the two
points get different grid ids, because the longitudinal span is computed
from the exact (unsnapped) latitude and shrinks as the cosine decreases
within the band: the longitude index drops from 150000 to 149998. -/
theorem C5_counterexample :
    generate_zone_geom 60 135 = some ⟨135, 59.99985, 135.0009, 60.0003⟩ ∧
    Rect.contains ⟨135, 59.99985, 135.0009, 60.0003⟩ 60.00029 135 ∧
    generate_grid_id 60.00029 135 ≠ generate_grid_id 60 135 := by
  refine ⟨geom_60_135, ⟨by norm_num, by norm_num, by norm_num, by norm_num⟩,
    ?_⟩
  rw [id_60_135, id_60p_135]
  decide

/-- C5 (amended): `generate_grid_id` is a pure function (trivially
deterministic), and two coordinate pairs ON THE SAME LATITUDE lying in the
same snapped cell always receive the same id.  The cross-latitude half of
the original claim fails (see the counterexample): the longitudinal span
varies continuously with the latitude inside a band. -/
theorem C5_cellid_deterministic_and_same_lat_stable :
    (∀ lat lon, generate_grid_id lat lon = generate_grid_id lat lon) ∧
    (∀ lat lon lon2 r, generate_zone_geom lat lon = some r →
      Rect.contains r lat lon2 → -180 ≤ lon2 → lon2 ≤ 180 →
      generate_grid_id lat lon2 = generate_grid_id lat lon) := by
  refine ⟨fun _ _ => rfl, ?_⟩
  intro lat lon lon2 r hgeom hc hlo hhi
  unfold generate_zone_geom at hgeom
  split at hgeom
  · exact absurd hgeom (by simp)
  next hvalid =>
    injection hgeom with hgeom
    rw [← hgeom] at hc
    obtain ⟨hc1, hc2, hc3, hc4⟩ := hc
    have hs := gridSizeLon_pos lat
    have hfloor : ⌊lon2 / gridSizeLon lat⌋ = ⌊lon / gridSizeLon lat⌋ := by
      rw [Int.floor_eq_iff]
      constructor
      · exact (le_div_iff₀ hs).mpr hc3
      · rw [div_lt_iff₀ hs]
        linarith
    have hvalid2 : ¬(lat < -90 ∨ lat > 90 ∨ lon2 < -180 ∨ lon2 > 180) := by
      push_neg at hvalid ⊢
      exact ⟨hvalid.1, hvalid.2.1, by linarith, by linarith⟩
    unfold generate_grid_id gridIndex
    rw [if_neg hvalid2, if_neg hvalid, hfloor]

theorem C5_cellid_witness :
    generate_grid_id 60 135 = generate_grid_id 60 135 ∧
    generate_zone_geom 60 135 = some ⟨135, 59.99985, 135.0009, 60.0003⟩ ∧
    Rect.contains ⟨135, 59.99985, 135.0009, 60.0003⟩ 60 135.0001 ∧
    generate_grid_id 60 135.0001 = generate_grid_id 60 135 :=
  ⟨C5_cellid_deterministic_and_same_lat_stable.1 60 135, geom_60_135,
   ⟨by norm_num, by norm_num, by norm_num, by norm_num⟩,
   C5_cellid_deterministic_and_same_lat_stable.2 60 135 135.0001
     ⟨135, 59.99985, 135.0009, 60.0003⟩ geom_60_135
     ⟨by norm_num, by norm_num, by norm_num, by norm_num⟩ (by norm_num)
     (by norm_num)⟩

/-! ## Claim C10: two concurrent attacks under the per-zone try-lock -/

/-- The defense-score effect of one attack on the attacked zone, from
`attack_zone`: ownership transfer resets the defense to 50 when
`GREATEST(0, defense - power)` reaches zero, otherwise the defense drops to
that value. -/
def attackEffect (power d : Int) : Int :=
  if max 0 (d - power) = 0 then 50 else max 0 (d - power)

/-- Modelled from the spec: the Lock Coordinator's per-zone lock (§4.4) is a
non-blocking try-lock — `tryAcquire` returns immediately and a contended
caller receives `Locked`.  In the source this is `SELECT ... FOR UPDATE
NOWAIT` plus the `lock_not_available` handler; the scheduling of two
concurrent database transactions is not code under src/, so the protocol
follows the specification's words.  An attacker thread runs: try-lock → read
the defense → write the attacked defense → unlock; a thread that finds the
lock taken aborts immediately with `Locked`. -/
inductive Phase where
  | start | reading | writing (v : Int) | unlocking | doneOk | doneLocked
deriving DecidableEq, Repr

/-- Shared zone state plus the two thread states. -/
structure ConcState where
  lock : Bool
  defense : Int
  t0 : Phase
  t1 : Phase
deriving DecidableEq, Repr

/-- One step of a thread with attack power `p`: phase, lock and defense
after the step. -/
def step (p : Int) (ph : Phase) (lock : Bool) (defense : Int) :
    Phase × Bool × Int :=
  match ph with
  | .start => if lock then (.doneLocked, lock, defense)
              else (.reading, true, defense)
  | .reading => (.writing defense, lock, defense)
  | .writing v => (.unlocking, lock, attackEffect p v)
  | .unlocking => (.doneOk, false, defense)
  | .doneOk => (.doneOk, lock, defense)
  | .doneLocked => (.doneLocked, lock, defense)

/-- Let thread `i` (false = thread 0, true = thread 1) take one step. -/
def stepThread (p0 p1 : Int) (i : Bool) (s : ConcState) : ConcState :=
  if i then
    let r := step p1 s.t1 s.lock s.defense
    { s with t1 := r.1, lock := r.2.1, defense := r.2.2 }
  else
    let r := step p0 s.t0 s.lock s.defense
    { s with t0 := r.1, lock := r.2.1, defense := r.2.2 }

/-- Run an arbitrary interleaving (schedule) of the two threads. -/
def run (p0 p1 : Int) : List Bool → ConcState → ConcState
  | [], s => s
  | i :: rest, s => run p0 p1 rest (stepThread p0 p1 i s)

/-- Both threads poised to attack a zone with defense `d`; lock free. -/
def initState (d : Int) : ConcState := ⟨false, d, .start, .start⟩

/-- A thread inside its critical section. -/
def inCrit : Phase → Bool
  | .reading => true
  | .writing _ => true
  | .unlocking => true
  | _ => false

/-- A thread that has already written its attacked defense value. -/
def applied : Phase → Bool
  | .unlocking => true
  | .doneOk => true
  | _ => false

/-- A writing thread holds the current defense value (mutual exclusion rules
out an intervening write between its read and its write). -/
def writeOk : Phase → Int → Prop
  | .writing v, dfn => v = dfn
  | _, _ => True

/-- The shared defense always equals the initial value `d` with exactly the
already-applied attacks folded in, in some order. -/
def histOk (d p0 p1 : Int) (a0 a1 : Bool) (dfn : Int) : Prop :=
  match a0, a1 with
  | false, false => dfn = d
  | true, false => dfn = attackEffect p0 d
  | false, true => dfn = attackEffect p1 d
  | true, true => dfn = attackEffect p1 (attackEffect p0 d) ∨
                  dfn = attackEffect p0 (attackEffect p1 d)

/-- Inductive invariant of the two-attacker protocol: mutual exclusion, the
lock mirrors critical-section occupancy, a writing thread holds the current
defense value, the shared defense reflects exactly the applied attacks, and
a turned-away thread implies the other one was, and stays, inside or beyond
its critical section. -/
def Inv (d p0 p1 : Int) (s : ConcState) : Prop :=
  (inCrit s.t0 = false ∨ inCrit s.t1 = false) ∧
  s.lock = (inCrit s.t0 || inCrit s.t1) ∧
  writeOk s.t0 s.defense ∧
  writeOk s.t1 s.defense ∧
  histOk d p0 p1 (applied s.t0) (applied s.t1) s.defense ∧
  (s.t0 = .doneLocked → inCrit s.t1 = true ∨ s.t1 = .doneOk) ∧
  (s.t1 = .doneLocked → inCrit s.t0 = true ∨ s.t0 = .doneOk)

lemma inv_init (d p0 p1 : Int) : Inv d p0 p1 (initState d) := by
  refine ⟨Or.inl rfl, rfl, trivial, trivial, rfl, ?_, ?_⟩ <;>
    (intro h; exact absurd h (by simp [initState]))

lemma inv_step (d p0 p1 : Int) (i : Bool) (s : ConcState)
    (h : Inv d p0 p1 s) : Inv d p0 p1 (stepThread p0 p1 i s) := by
  obtain ⟨hmx, hlk, hw0, hw1, hh, hdl0, hdl1⟩ := h
  obtain ⟨lock, defense, t0, t1⟩ := s
  cases i <;> cases lock <;> cases t0 <;> cases t1 <;>
    simp_all [Inv, stepThread, step, inCrit, applied, writeOk, histOk]

lemma inv_run (d p0 p1 : Int) (sched : List Bool) (s : ConcState)
    (h : Inv d p0 p1 s) : Inv d p0 p1 (run p0 p1 sched s) := by
  induction sched generalizing s with
  | nil => exact h
  | cons i rest ih => exact ih _ (inv_step d p0 p1 i s h)

/-- Counterexample to C10 as stated: with defense 50 and two power-20
attacks, the strictly concurrent schedule in which thread 1 tries the lock
while thread 0 holds it ends with exactly one `Locked` — but the final
defense is 30, the effect of the ONE successful attack, not the value 10
that applying the two attacks in a sequential order would give.  The
fail-fast lock turns the second attack away instead of queueing it, so "the
final defense equals the two attacks applied in some order" is false for
contended runs. -/
theorem C10_counterexample :
    (run 20 20 [false, true, false, false, false] (initState 50)).t0 =
      .doneOk ∧
    (run 20 20 [false, true, false, false, false] (initState 50)).t1 =
      .doneLocked ∧
    (run 20 20 [false, true, false, false, false] (initState 50)).defense =
      30 ∧
    attackEffect 20 (attackEffect 20 50) = 10 ∧
    attackEffect 20 50 = 30 := by
  decide

/-- C10 (amended): for every interleaved schedule of two concurrent attacks
on one zone, never do both callers receive `Locked`; when both complete
successfully the final defense is the two attacks applied in some sequential
order; and when one caller is turned away with `Locked` the final defense is
exactly the successful attack's effect alone — never an interleaved
lost-update value. -/
theorem C10_concurrent_attacks_serialize (sched : List Bool) (d p0 p1 : Int) :
    ¬((run p0 p1 sched (initState d)).t0 = .doneLocked ∧
      (run p0 p1 sched (initState d)).t1 = .doneLocked) ∧
    ((run p0 p1 sched (initState d)).t0 = .doneOk →
     (run p0 p1 sched (initState d)).t1 = .doneOk →
      (run p0 p1 sched (initState d)).defense =
        attackEffect p1 (attackEffect p0 d) ∨
      (run p0 p1 sched (initState d)).defense =
        attackEffect p0 (attackEffect p1 d)) ∧
    ((run p0 p1 sched (initState d)).t0 = .doneOk →
     (run p0 p1 sched (initState d)).t1 = .doneLocked →
      (run p0 p1 sched (initState d)).defense = attackEffect p0 d) ∧
    ((run p0 p1 sched (initState d)).t0 = .doneLocked →
     (run p0 p1 sched (initState d)).t1 = .doneOk →
      (run p0 p1 sched (initState d)).defense = attackEffect p1 d) := by
  obtain ⟨hmx, hlk, hw0, hw1, hh, hdl0, hdl1⟩ :=
    inv_run d p0 p1 sched (initState d) (inv_init d p0 p1)
  refine ⟨?_, ?_, ?_, ?_⟩
  · rintro ⟨h0, h1⟩
    rcases hdl0 h0 with hcrit | hok
    · rw [h1] at hcrit
      simp [inCrit] at hcrit
    · rw [h1] at hok
      exact absurd hok (by simp)
  · intro h0 h1
    rw [h0, h1] at hh
    simpa [applied, histOk] using hh
  · intro h0 h1
    rw [h0, h1] at hh
    simpa [applied, histOk] using hh
  · intro h0 h1
    rw [h0, h1] at hh
    simpa [applied, histOk] using hh

theorem C10_concurrent_attacks_serialize_witness :
    ((run 20 20 [false, false, false, false, true, true, true, true]
        (initState 50)).t0 = .doneOk →
     (run 20 20 [false, false, false, false, true, true, true, true]
        (initState 50)).t1 = .doneOk →
      (run 20 20 [false, false, false, false, true, true, true, true]
        (initState 50)).defense = attackEffect 20 (attackEffect 20 50) ∨
      (run 20 20 [false, false, false, false, true, true, true, true]
        (initState 50)).defense = attackEffect 20 (attackEffect 20 50)) ∧
    (run 20 20 [false, false, false, false, true, true, true, true]
      (initState 50)).defense = 10 :=
  ⟨(C10_concurrent_attacks_serialize
      [false, false, false, false, true, true, true, true] 50 20 20).2.1,
   by decide⟩

end TurfRun
